import Mathlib

/-!
Verification development for the `png-decoder` repository.

The Rust sources are shallowly embedded: bytes are `Nat` values (u8 bytes are
`< 256`, and every wrapping u8 addition is modelled as addition modulo 256),
byte buffers are `List Nat`, fallible functions return `Except` or `Option`.
The imperative per-row reconstruction loops of `src/filter.rs` write the output
buffer strictly left to right, each cell written once before it is read, so a
row loop is embedded as a fold that appends one reconstructed byte per input
byte (`rowGo` below).  `usize` index arithmetic is modelled with the release
(wrapping) semantics, under which all indices of `src/filter.rs` are in
bounds for well-formed scanlines.
-/

namespace PngDecoder

/-- Success test for `Result` / `IResult` values. -/
def eOk {ε α : Type} : Except ε α → Bool
  | .ok _ => true
  | .error _ => false

/-- `u8::wrapping_add` on byte values. -/
def wadd (a b : Nat) : Nat := (a + b) % 256

/-- `Filter` (src/filter.rs, lines 3-10). -/
inductive Filter
  | None
  | Sub
  | Up
  | Average
  | Paeth
deriving DecidableEq, Repr

/-- The byte tag of a filter, inverse of `TryFrom<u8> for Filter`
(src/filter.rs, lines 12-24). -/
def Filter.tagByte : Filter → Nat
  | .None => 0
  | .Sub => 1
  | .Up => 2
  | .Average => 3
  | .Paeth => 4

/-- `paeth_predictor` (src/filter.rs, lines 308-322).  The source computes in
`i16`; for byte inputs every intermediate value lies in `[-510, 510]`, so
arithmetic on `Int` is an exact model. -/
def paeth_predictor (left up up_left : Nat) : Nat :=
  let a : Int := left
  let b : Int := up
  let c : Int := up_left
  let p : Int := a + b - c
  let pa := (p - a).natAbs
  let pb := (p - b).natAbs
  let pc := (p - c).natAbs
  if pa ≤ pb ∧ pa ≤ pc then left
  else if pb ≤ pc then up
  else up_left

/-- Spec-side initial estimate `p = left + up − up_left` (signed, ≥16-bit). -/
def paeth_p (left up up_left : Nat) : Int := (left : Int) + up - up_left

/-- Spec-side distance `pa = |p − left|`. -/
def paeth_pa (left up up_left : Nat) : Nat := (paeth_p left up up_left - left).natAbs

/-- Spec-side distance `pb = |p − up|`. -/
def paeth_pb (left up up_left : Nat) : Nat := (paeth_p left up up_left - up).natAbs

/-- Spec-side distance `pc = |p − up_left|`. -/
def paeth_pc (left up up_left : Nat) : Nat := (paeth_p left up up_left - up_left).natAbs

/-! ### Per-row reconstruction loops

Each `decode_*` routine of src/filter.rs fills the current row of the output
buffer left to right; byte `i` of the row depends only on the filtered byte
`i`, the previous reconstructed row, and already-reconstructed bytes of the
current row.  `rowGo step acc line` runs such a loop: `acc` is the portion of
the current row already written, and `step i p acc` is the loop body producing
output byte `i` from filtered byte `p`. -/
def rowGo (step : Nat → Nat → List Nat → Nat) (acc : List Nat) : List Nat → List Nat
  | [] => acc
  | p :: rest => rowGo step (acc ++ [step acc.length p acc]) rest

/-- `decode_none` (src/filter.rs, lines 100-105): the row is copied verbatim. -/
def decode_none (line : List Nat) : List Nat := line

/-- Loop body of `decode_sub` (src/filter.rs, lines 207-216): the first `bpp`
bytes are copied verbatim, later bytes add the reconstructed byte `bpp`
positions to the left. -/
def subStep (bpp : Nat) : Nat → Nat → List Nat → Nat :=
  fun i p acc => if i < bpp then p else wadd p (acc.getD (i - bpp) 0)

/-- `decode_sub` (src/filter.rs, lines 207-216). -/
def decode_sub (bpp : Nat) (line : List Nat) : List Nat := rowGo (subStep bpp) [] line

/-- Loop body of `decode_up` for a row with a previous row. -/
def upStep (prev : List Nat) : Nat → Nat → List Nat → Nat :=
  fun i p _ => wadd p (prev.getD i 0)

/-- `decode_up` (src/filter.rs, lines 218-229).  `line_start == 0` (row 0)
dispatches to `decode_none`; the row-0/row-positive distinction is carried
here by the `Option` previous row. -/
def decode_up : Option (List Nat) → List Nat → List Nat
  | none, line => decode_none line
  | some prev, line => rowGo (upStep prev) [] line

/-- Loop body of `decode_average` for a row with a previous row: the first
`bpp` bytes add `up / 2`, later bytes add `(up + left) / 2` computed in u16
and truncated to u8 (the `% 256` mirrors the `as u8` cast; the quotient is
at most 255 for byte inputs). -/
def avgStep (bpp : Nat) (prev : List Nat) : Nat → Nat → List Nat → Nat :=
  fun i p acc =>
    if i < bpp then wadd p (prev.getD i 0 / 2)
    else wadd p (((prev.getD i 0 + acc.getD (i - bpp) 0) / 2) % 256)

/-- `decode_average` (src/filter.rs, lines 231-248).  Row 0 dispatches to
`decode_sub`, exactly as the source does. -/
def decode_average (bpp : Nat) : Option (List Nat) → List Nat → List Nat
  | none, line => decode_sub bpp line
  | some prev, line => rowGo (avgStep bpp prev) [] line

/-- Loop body of `decode_paeth` for a row with a previous row: the first
`bpp` bytes add `up` directly, later bytes add the Paeth predictor of
(left, up, up-left). -/
def paethStep (bpp : Nat) (prev : List Nat) : Nat → Nat → List Nat → Nat :=
  fun i p acc =>
    if i < bpp then wadd p (prev.getD i 0)
    else wadd p (paeth_predictor (acc.getD (i - bpp) 0) (prev.getD i 0) (prev.getD (i - bpp) 0))

/-- `decode_paeth` (src/filter.rs, lines 250-269).  Row 0 dispatches to
`decode_sub`. -/
def decode_paeth (bpp : Nat) : Option (List Nat) → List Nat → List Nat
  | none, line => decode_sub bpp line
  | some prev, line => rowGo (paethStep bpp prev) [] line

/-- `decode_paeth_buf` (src/filter.rs, lines 271-295): identical to
`decode_paeth` except that `up`/`up_left` are read from a scratch copy of the
previous row instead of the large output buffer; the scratch copy holds
exactly the previous reconstructed row. -/
def decode_paeth_buf (bpp : Nat) : Option (List Nat) → List Nat → List Nat
  | none, line => decode_sub bpp line
  | some prev, line =>
    let previous := prev
    rowGo (paethStep bpp previous) [] line

/-- Fold of `unfilter` (src/filter.rs, lines 26-46) over the scanlines.  The
source threads `line_start` through the fold and each decode routine reads the
previous row from the shared output buffer; here the previous reconstructed
row is threaded directly (`none` encodes `line_start == 0`). -/
def unfilterGo (bpp : Nat) (prevOpt : Option (List Nat)) :
    List (Filter × List Nat) → List (List Nat)
  | [] => []
  | (f, line) :: rest =>
    let row := match f with
      | Filter.None => decode_none line
      | Filter.Sub => decode_sub bpp line
      | Filter.Up => decode_up prevOpt line
      | Filter.Average => decode_average bpp prevOpt line
      | Filter.Paeth => decode_paeth bpp prevOpt line
    row :: unfilterGo bpp (some row) rest

/-- `unfilter` (src/filter.rs, lines 26-46): reconstructed rows written into a
fresh `bpp * width * height` buffer.  `width` and `height` only size the
buffer in the source; the theorems below carry the corresponding length
hypotheses. -/
def unfilter (width height bpp : Nat) (scanlines : List (Filter × List Nat)) : List Nat :=
  let _ := width
  let _ := height
  (unfilterGo bpp none scanlines).flatten

/-- Fold of `unfilter_buffer` (src/filter.rs, lines 79-98): as `unfilter`, but
Paeth rows go through `decode_paeth_buf` with the scratch previous-row copy. -/
def unfilterBufGo (bpp : Nat) (prevOpt : Option (List Nat)) :
    List (Filter × List Nat) → List (List Nat)
  | [] => []
  | (f, line) :: rest =>
    let row := match f with
      | Filter.None => decode_none line
      | Filter.Sub => decode_sub bpp line
      | Filter.Up => decode_up prevOpt line
      | Filter.Average => decode_average bpp prevOpt line
      | Filter.Paeth => decode_paeth_buf bpp prevOpt line
    row :: unfilterBufGo bpp (some row) rest

/-- `unfilter_buffer` (src/filter.rs, lines 79-98). -/
def unfilter_buffer (width height bpp : Nat) (scanlines : List (Filter × List Nat)) : List Nat :=
  let _ := width
  let _ := height
  (unfilterBufGo bpp none scanlines).flatten

/-! C3: the Paeth predictor follows the spec formulas and its stated
tie-breaks. -/

/-- C3: `paeth_predictor(left, up, up_left)` computes `p = left + up −
up_left` in exact signed arithmetic, the distances `pa, pb, pc`, and returns
`left` when `pa ≤ pb ∧ pa ≤ pc`, else `up` when `pb ≤ pc`, else `up_left`;
in particular it returns `left` when `pa = pb = pc`, and returns `left` when
`pa = pb < pc`. -/
theorem paeth_predictor_spec (left up up_left : Nat)
    (hl : left < 256) (hu : up < 256) (hc : up_left < 256) :
    (paeth_predictor left up up_left =
      if paeth_pa left up up_left ≤ paeth_pb left up up_left ∧
         paeth_pa left up up_left ≤ paeth_pc left up up_left then left
      else if paeth_pb left up up_left ≤ paeth_pc left up up_left then up
      else up_left)
    ∧ (paeth_pa left up up_left = paeth_pb left up up_left ∧
        paeth_pb left up up_left = paeth_pc left up up_left →
        paeth_predictor left up up_left = left)
    ∧ (paeth_pa left up up_left = paeth_pb left up up_left ∧
        paeth_pa left up up_left < paeth_pc left up up_left →
        paeth_predictor left up up_left = left) := by
  refine ⟨rfl, fun h => ?_, fun h => ?_⟩
  · have h1 : paeth_pa left up up_left ≤ paeth_pb left up up_left := le_of_eq h.1
    have h2 : paeth_pa left up up_left ≤ paeth_pc left up up_left :=
      le_of_eq (h.1.trans h.2)
    simp only [paeth_predictor, paeth_pa, paeth_pb, paeth_pc, paeth_p] at h1 h2 ⊢
    rw [if_pos ⟨h1, h2⟩]
  · have h1 : paeth_pa left up up_left ≤ paeth_pb left up up_left := le_of_eq h.1
    have h2 : paeth_pa left up up_left ≤ paeth_pc left up up_left := le_of_lt h.2
    simp only [paeth_predictor, paeth_pa, paeth_pb, paeth_pc, paeth_p] at h1 h2 ⊢
    rw [if_pos ⟨h1, h2⟩]

/-- Witness for C3 at `(left, up, up_left) = (2, 2, 0)`, where
`pa = pb = 2 < pc = 4`. -/
theorem paeth_predictor_spec_witness :
    (2 : Nat) < 256 ∧ paeth_predictor 2 2 0 = 2 :=
  ⟨by decide, (paeth_predictor_spec 2 2 0 (by decide) (by decide) (by decide)).2.2
    (by decide)⟩

/-! ### C1: forward filtering and the reconstruction round trip

The repository contains only the decoder, so the forward (encode) direction is
modelled from the spec. -/

/-- Modelled from the spec: the per-byte predictor of §4.5 ("Per-byte
reference values": `left = reconstructed(r, c−b)` if `c ≥ b` else 0,
`up = reconstructed(r−1, c)` if `r > 0` else 0, `up_left` analogously), with
the filter table None/Sub/Up/Average/Paeth.  For the forward direction the
reconstructed row is the raw row itself. -/
def specPred (f : Filter) (bpp : Nat) (prevOpt : Option (List Nat)) (raw : List Nat)
    (i : Nat) : Nat :=
  let left := if bpp ≤ i then raw.getD (i - bpp) 0 else 0
  let up := match prevOpt with
    | none => 0
    | some prev => prev.getD i 0
  let up_left := match prevOpt with
    | none => 0
    | some prev => if bpp ≤ i then prev.getD (i - bpp) 0 else 0
  match f with
  | Filter.None => 0
  | Filter.Sub => left
  | Filter.Up => up
  | Filter.Average => (up + left) / 2
  | Filter.Paeth => paeth_predictor left up up_left

/-- Modelled from the spec: the PNG forward filter (the encoder is not part of
src/).  Byte `i` of the filtered row is `raw(i) − pred(i)` in wrapping u8
arithmetic, the inverse of the §4.5 reconstruction table. -/
def filterRow (f : Filter) (bpp : Nat) (prevOpt : Option (List Nat)) (raw : List Nat) :
    List Nat :=
  (List.range raw.length).map
    (fun i => (raw.getD i 0 + 256 - specPred f bpp prevOpt raw i) % 256)

/-- C1 (code bug): filtering row-0 bytes `[2, 3]` with the PNG Average filter
(`bpp = 1`) yields `[2, 2]`, but `decode_average` — the routine `unfilter`
dispatches Average rows to — reconstructs `[2, 4]`, not the original `[2, 3]`:
at row 0 the source dispatches Average to `decode_sub`, which adds `left`
where the PNG Average filter requires adding `left / 2`. -/
theorem average_row0_roundtrip_fails :
    filterRow Filter.Average 1 none [2, 3] = [2, 2] ∧
    decode_average 1 none (filterRow Filter.Average 1 none [2, 3]) = [2, 4] ∧
    ([2, 4] : List Nat) ≠ [2, 3] := by decide

/-! ### The `_bis` reconstruction variant (in place over the inflated buffer)

`unfilter_bis` (src/filter.rs, lines 48-77) receives the whole inflated buffer
and per-scanline start offsets (`lines_num` in src/png.rs produces
`i * (len + 1) + 1` for row `i`).  `decode_paeth_bis` additionally overwrites
the scanline's own segment of the inflated buffer with the reconstructed
bytes.  `readSeg`/`writeSeg` model in-bounds slice reads and
`copy_from_slice` writes. -/

/-- Read `len` bytes of a buffer starting at `start`. -/
def readSeg (l : List Nat) (start len : Nat) : List Nat := (l.drop start).take len

/-- Overwrite the segment starting at `start` with `seg`. -/
def writeSeg (l : List Nat) (start : Nat) (seg : List Nat) : List Nat :=
  l.take start ++ seg ++ l.drop (start + seg.length)

/-- `decode_none_bis` (src/filter.rs, lines 107-117). -/
def decode_none_bis (len start : Nat) (inflated : List Nat) : List Nat :=
  readSeg inflated start len

/-- `decode_sub_bis` (src/filter.rs, lines 119-134). -/
def decode_sub_bis (bpp len start : Nat) (inflated : List Nat) : List Nat :=
  rowGo (subStep bpp) [] (readSeg inflated start len)

/-- `decode_up_bis` (src/filter.rs, lines 136-153); `data_start == 0` is
carried by the `Option` previous row. -/
def decode_up_bis (len start : Nat) (inflated : List Nat) : Option (List Nat) → List Nat
  | none => decode_none_bis len start inflated
  | some prev => rowGo (upStep prev) [] (readSeg inflated start len)

/-- `decode_average_bis` (src/filter.rs, lines 155-177). -/
def decode_average_bis (bpp len start : Nat) (inflated : List Nat) :
    Option (List Nat) → List Nat
  | none => decode_sub_bis bpp len start inflated
  | some prev => rowGo (avgStep bpp prev) [] (readSeg inflated start len)

/-- `decode_paeth_bis` (src/filter.rs, lines 179-205): returns the updated
inflated buffer and the reconstructed row.  The source reconstructs in place
over `inflated[start..start + len]` reading `up`/`up_left` from the
`prev_buff` scratch copy; each in-place cell is only read (as `left`) after
it has been overwritten, so the loop equals the `paethStep` fold on the
original segment, whose result is then written back. -/
def decode_paeth_bis (bpp len start : Nat) (inflated : List Nat) :
    Option (List Nat) → List Nat × List Nat
  | none => (inflated, decode_sub_bis bpp len start inflated)
  | some prev =>
    let prev_buff := prev
    let row := rowGo (paethStep bpp prev_buff) [] (readSeg inflated start len)
    (writeSeg inflated start row, row)

/-- Fold of `unfilter_bis` (src/filter.rs, lines 48-77) over the scanlines. -/
def unfilterBisGo (bpp len : Nat) (prevOpt : Option (List Nat)) (inflated : List Nat) :
    List (Filter × Nat) → List (List Nat)
  | [] => []
  | (f, start) :: rest =>
    match f with
    | Filter.Paeth =>
      let res := decode_paeth_bis bpp len start inflated prevOpt
      res.2 :: unfilterBisGo bpp len (some res.2) res.1 rest
    | Filter.None =>
      let row := decode_none_bis len start inflated
      row :: unfilterBisGo bpp len (some row) inflated rest
    | Filter.Sub =>
      let row := decode_sub_bis bpp len start inflated
      row :: unfilterBisGo bpp len (some row) inflated rest
    | Filter.Up =>
      let row := decode_up_bis len start inflated prevOpt
      row :: unfilterBisGo bpp len (some row) inflated rest
    | Filter.Average =>
      let row := decode_average_bis bpp len start inflated prevOpt
      row :: unfilterBisGo bpp len (some row) inflated rest

/-- `unfilter_bis` (src/filter.rs, lines 48-77); `len = bpp * width` as in the
source. -/
def unfilter_bis (width height bpp : Nat) (scanlines : List (Filter × Nat))
    (inflated : List Nat) : List Nat :=
  let _ := height
  (unfilterBisGo bpp (bpp * width) none inflated scanlines).flatten

/-- The inflated-buffer image of a scanline list: each row is its filter tag
byte followed by its payload, rows contiguous (the layout `lines_slices` /
`lines_num` in src/png.rs read from). -/
def layoutBytes : List (Filter × List Nat) → List Nat
  | [] => []
  | (f, line) :: rest => f.tagByte :: (line ++ layoutBytes rest)

/-- The `(filter, start)` scanlines `lines_num` (src/png.rs, lines 235-246)
produces over that layout: row `i` starts at `pos + i * (len + 1) + 1`. -/
def layoutStarts (len pos : Nat) : List (Filter × List Nat) → List (Filter × Nat)
  | [] => []
  | (f, _) :: rest => (f, pos + 1) :: layoutStarts len (pos + (len + 1)) rest

/-! ### C5: the three reconstruction variants agree -/

lemma rowGo_length (step : Nat → Nat → List Nat → Nat) :
    ∀ (line acc : List Nat), (rowGo step acc line).length = acc.length + line.length := by
  intro line
  induction line with
  | nil => intro acc; simp [rowGo]
  | cons p rest ih =>
    intro acc
    rw [rowGo, ih]
    simp
    omega

lemma decode_paeth_eq_buf (bpp : Nat) (prevOpt : Option (List Nat)) (line : List Nat) :
    decode_paeth bpp prevOpt line = decode_paeth_buf bpp prevOpt line := by
  cases prevOpt <;> rfl

lemma unfilterGo_eq_bufGo (bpp : Nat) :
    ∀ (sl : List (Filter × List Nat)) (prevOpt : Option (List Nat)),
      unfilterGo bpp prevOpt sl = unfilterBufGo bpp prevOpt sl := by
  intro sl
  induction sl with
  | nil => intro prevOpt; rfl
  | cons hd rest ih =>
    intro prevOpt
    obtain ⟨f, line⟩ := hd
    cases f <;>
      simp only [unfilterGo, unfilterBufGo, decode_paeth_eq_buf] <;>
      rw [ih]

/-- Reading the head scanline out of the layout: its payload, the remaining
layout, and the in-bounds fact. -/
lemma drop_layout_head (inflated : List Nat) (pos : Nat) (f : Filter) (line : List Nat)
    (rows : List (Filter × List Nat))
    (hinv : inflated.drop pos = layoutBytes ((f, line) :: rows)) :
    readSeg inflated (pos + 1) line.length = line ∧
    inflated.drop (pos + (line.length + 1)) = layoutBytes rows ∧
    pos + (line.length + 1) ≤ inflated.length := by
  have h1 : inflated.drop (pos + 1) = line ++ layoutBytes rows := by
    rw [← List.drop_drop 1 pos inflated, hinv]
    rfl
  have h2 : readSeg inflated (pos + 1) line.length = line := by
    rw [readSeg, h1, List.take_left]
  have h3 : inflated.drop (pos + (line.length + 1)) = layoutBytes rows := by
    have : pos + (line.length + 1) = (pos + 1) + line.length := by omega
    rw [this, ← List.drop_drop line.length (pos + 1) inflated, h1, List.drop_left]
  have h4 : pos + (line.length + 1) ≤ inflated.length := by
    have hlen := congrArg List.length hinv
    simp only [List.length_drop, layoutBytes, List.length_cons, List.length_append] at hlen
    omega
  exact ⟨h2, h3, h4⟩

lemma writeSeg_drop_of_le (l seg : List Nat) (s : Nat) (h : s ≤ l.length) :
    (writeSeg l s seg).drop (s + seg.length) = l.drop (s + seg.length) := by
  rw [writeSeg]
  have h2 : (l.take s ++ seg).length = s + seg.length := by
    simp [List.length_take]
    omega
  rw [← h2, List.drop_left]

lemma unfilterBisGo_eq (bpp len : Nat) :
    ∀ (rows : List (Filter × List Nat)) (pos : Nat) (inflated : List Nat)
      (prevOpt : Option (List Nat)),
      (∀ r ∈ rows, (r.2 : List Nat).length = len) →
      inflated.drop pos = layoutBytes rows →
      unfilterBisGo bpp len prevOpt inflated (layoutStarts len pos rows) =
        unfilterGo bpp prevOpt rows := by
  intro rows
  induction rows with
  | nil => intro pos inflated prevOpt _ _; rfl
  | cons hd rest ih =>
    intro pos inflated prevOpt hlen hinv
    obtain ⟨f, line⟩ := hd
    have hl : line.length = len := hlen (f, line) (by simp)
    obtain ⟨hread, hnext, hbound⟩ := drop_layout_head inflated pos f line rest hinv
    rw [hl] at hread hnext hbound
    have hlen2 : ∀ r ∈ rest, (r.2 : List Nat).length = len := fun r hr =>
      hlen r (List.mem_cons_of_mem _ hr)
    cases f with
    | None =>
      simp only [layoutStarts, unfilterBisGo, unfilterGo, decode_none_bis, hread,
        decode_none]
      rw [ih (pos + (len + 1)) inflated (some line) hlen2 hnext]
    | Sub =>
      simp only [layoutStarts, unfilterBisGo, unfilterGo, decode_sub_bis, hread,
        decode_sub]
      rw [ih (pos + (len + 1)) inflated (some (rowGo (subStep bpp) [] line)) hlen2 hnext]
    | Up =>
      cases prevOpt with
      | none =>
        simp only [layoutStarts, unfilterBisGo, unfilterGo, decode_up_bis,
          decode_none_bis, hread, decode_up, decode_none]
        rw [ih (pos + (len + 1)) inflated (some line) hlen2 hnext]
      | some prev =>
        simp only [layoutStarts, unfilterBisGo, unfilterGo, decode_up_bis, hread,
          decode_up]
        rw [ih (pos + (len + 1)) inflated (some (rowGo (upStep prev) [] line)) hlen2 hnext]
    | Average =>
      cases prevOpt with
      | none =>
        simp only [layoutStarts, unfilterBisGo, unfilterGo, decode_average_bis,
          decode_sub_bis, hread, decode_average, decode_sub]
        rw [ih (pos + (len + 1)) inflated (some (rowGo (subStep bpp) [] line)) hlen2 hnext]
      | some prev =>
        simp only [layoutStarts, unfilterBisGo, unfilterGo, decode_average_bis, hread,
          decode_average]
        rw [ih (pos + (len + 1)) inflated (some (rowGo (avgStep bpp prev) [] line)) hlen2
          hnext]
    | Paeth =>
      cases prevOpt with
      | none =>
        simp only [layoutStarts, unfilterBisGo, unfilterGo, decode_paeth_bis,
          decode_sub_bis, hread, decode_paeth, decode_sub]
        rw [ih (pos + (len + 1)) inflated (some (rowGo (subStep bpp) [] line)) hlen2 hnext]
      | some prev =>
        have hrowlen : (rowGo (paethStep bpp prev) [] line).length = len := by
          rw [rowGo_length]
          simpa using hl
        have hwrite : (writeSeg inflated (pos + 1) (rowGo (paethStep bpp prev) [] line)).drop
            (pos + (len + 1)) = layoutBytes rest := by
          have harith : pos + (len + 1) =
              (pos + 1) + (rowGo (paethStep bpp prev) [] line).length := by
            rw [hrowlen]; omega
          rw [harith, writeSeg_drop_of_le _ _ _ (by omega), ← harith, hnext]
        simp only [layoutStarts, unfilterBisGo, unfilterGo, decode_paeth_bis, hread,
          decode_paeth]
        rw [ih (pos + (len + 1)) _ (some (rowGo (paethStep bpp prev) [] line)) hlen2 hwrite]

/-- C5: for scanlines of exactly `height` rows of `bpp * width` filtered bytes
each, the three reconstruction variants `unfilter` (fresh buffer),
`unfilter_bis` (in place over the inflated buffer, scratch previous row), and
`unfilter_buffer` (fresh buffer, scratch previous row for Paeth) produce
identical output byte vectors; `unfilter_bis` consumes the scanlines as
`(filter, start)` offsets into the inflated layout, as `lines_num` produces
them. -/
theorem unfilter_variants_agree (width height bpp : Nat) (rows : List (Filter × List Nat))
    (hbpp : 1 ≤ bpp) (hh : rows.length = height)
    (hrow : ∀ r ∈ rows, (r.2 : List Nat).length = bpp * width) :
    unfilter width height bpp rows = unfilter_buffer width height bpp rows ∧
    unfilter width height bpp rows =
      unfilter_bis width height bpp (layoutStarts (bpp * width) 0 rows)
        (layoutBytes rows) := by
  constructor
  · rw [unfilter, unfilter_buffer, unfilterGo_eq_bufGo]
  · rw [unfilter, unfilter_bis,
      unfilterBisGo_eq bpp (bpp * width) rows 0 (layoutBytes rows) none hrow
        (List.drop_zero _)]

/-- Witness for C5 on a 1×3 image exercising Paeth, Average and Up rows. -/
theorem unfilter_variants_agree_witness :
    unfilter 1 3 1 [(Filter.Paeth, [7]), (Filter.Average, [200]), (Filter.Up, [3])] =
      unfilter_buffer 1 3 1
        [(Filter.Paeth, [7]), (Filter.Average, [200]), (Filter.Up, [3])] ∧
    unfilter 1 3 1 [(Filter.Paeth, [7]), (Filter.Average, [200]), (Filter.Up, [3])] =
      unfilter_bis 1 3 1
        (layoutStarts 1 0 [(Filter.Paeth, [7]), (Filter.Average, [200]), (Filter.Up, [3])])
        (layoutBytes [(Filter.Paeth, [7]), (Filter.Average, [200]), (Filter.Up, [3])]) :=
  unfilter_variants_agree 1 3 1
    [(Filter.Paeth, [7]), (Filter.Average, [200]), (Filter.Up, [3])]
    (by decide) (by decide) (by decide)

/-! ### Chunk types and the ordering validator (src/chunk.rs) -/

/-- `ChunkType` (src/chunk.rs, lines 16-41).  The `Unknown` payload holds the
four tag bytes (the source stores the corresponding `char`s). -/
inductive ChunkType
  | IHDR
  | PLTE
  | IDAT
  | IEND
  | tRNS
  | gAMA
  | cHRM
  | sRGB
  | iCCP
  | tEXt
  | zTXt
  | iTXt
  | bKGD
  | pHYs
  | sBIT
  | sPLT
  | hIST
  | tIME
  | Unknown (a b c d : Nat)
deriving DecidableEq, Repr

/-- `BEFORE_PLTE_CHUNKS` (src/chunk.rs, lines 128-139). -/
def BEFORE_PLTE_CHUNKS : Finset ChunkType :=
  {ChunkType.PLTE, ChunkType.gAMA, ChunkType.cHRM, ChunkType.sRGB, ChunkType.iCCP,
   ChunkType.sBIT}

/-- `BEFORE_IDAT_CHUNKS` (src/chunk.rs, lines 141-157). -/
def BEFORE_IDAT_CHUNKS : Finset ChunkType :=
  {ChunkType.PLTE, ChunkType.tRNS, ChunkType.gAMA, ChunkType.cHRM, ChunkType.sRGB,
   ChunkType.iCCP, ChunkType.bKGD, ChunkType.pHYs, ChunkType.sBIT, ChunkType.sPLT,
   ChunkType.hIST}

/-- `START_CHUNKS` (src/chunk.rs, lines 159-181): everything except IHDR and
IEND. -/
def START_CHUNKS : Finset ChunkType :=
  {ChunkType.PLTE, ChunkType.IDAT, ChunkType.tRNS, ChunkType.gAMA, ChunkType.cHRM,
   ChunkType.sRGB, ChunkType.iCCP, ChunkType.tEXt, ChunkType.zTXt, ChunkType.iTXt,
   ChunkType.bKGD, ChunkType.pHYs, ChunkType.sBIT, ChunkType.sPLT, ChunkType.hIST,
   ChunkType.tIME}

/-- `validate_chunk` (src/chunk.rs, lines 215-347).  The accumulator is the
`(present, authorized)` pair of sets; only the chunk's type is inspected by
the source, so the chunk argument is its type.  Error messages elide the
`format!` payloads. -/
def validate_chunk (acc : Finset ChunkType × Finset ChunkType) (c : ChunkType) :
    Except String (Finset ChunkType × Finset ChunkType) :=
  let present := acc.1
  let authorized := acc.2
  if c ∈ authorized then
    match c with
    | ChunkType.IHDR => .ok (insert ChunkType.IHDR present, START_CHUNKS)
    | ChunkType.PLTE =>
      .ok (insert ChunkType.PLTE present, authorized \ BEFORE_PLTE_CHUNKS)
    | ChunkType.IDAT =>
      if ChunkType.IDAT ∈ present then .ok (present, authorized)
      else
        .ok (insert ChunkType.IDAT present,
          insert ChunkType.IEND (authorized \ BEFORE_IDAT_CHUNKS))
    | ChunkType.IEND => .ok (insert ChunkType.IEND present, ∅)
    | ChunkType.cHRM =>
      .ok (insert ChunkType.cHRM present, authorized.erase ChunkType.cHRM)
    | ChunkType.gAMA =>
      .ok (insert ChunkType.gAMA present, authorized.erase ChunkType.gAMA)
    | ChunkType.iCCP =>
      .ok (insert ChunkType.iCCP present, authorized.erase ChunkType.iCCP)
    | ChunkType.sBIT =>
      .ok (insert ChunkType.sBIT present, authorized.erase ChunkType.sBIT)
    | ChunkType.sRGB =>
      .ok (insert ChunkType.sRGB present, authorized.erase ChunkType.sRGB)
    | ChunkType.bKGD =>
      .ok (insert ChunkType.bKGD present,
        (authorized.erase ChunkType.PLTE).erase ChunkType.bKGD)
    | ChunkType.hIST =>
      .ok (insert ChunkType.hIST present,
        (authorized.erase ChunkType.PLTE).erase ChunkType.hIST)
    | ChunkType.tRNS =>
      .ok (insert ChunkType.tRNS present,
        (authorized.erase ChunkType.PLTE).erase ChunkType.tRNS)
    | ChunkType.pHYs =>
      .ok (insert ChunkType.pHYs present, authorized.erase ChunkType.pHYs)
    | ChunkType.sPLT => .ok (insert ChunkType.sPLT present, authorized)
    | ChunkType.tIME =>
      let present2 := insert ChunkType.tIME present
      let authorized2 := authorized.erase ChunkType.tIME
      .ok (present2,
        if ChunkType.IDAT ∈ present2 then authorized2.erase ChunkType.IDAT
        else authorized2)
    | ChunkType.iTXt =>
      let present2 := insert ChunkType.iTXt present
      .ok (present2,
        if ChunkType.IDAT ∈ present2 then authorized.erase ChunkType.IDAT else authorized)
    | ChunkType.tEXt =>
      let present2 := insert ChunkType.tEXt present
      .ok (present2,
        if ChunkType.IDAT ∈ present2 then authorized.erase ChunkType.IDAT else authorized)
    | ChunkType.zTXt =>
      let present2 := insert ChunkType.zTXt present
      .ok (present2,
        if ChunkType.IDAT ∈ present2 then authorized.erase ChunkType.IDAT else authorized)
    | ChunkType.Unknown _ _ _ _ => .error "Unknown chunks are not handled for now"
  else .error "Unauthorized chunk"

/-- The initial validation state of `validate_chunk_constraints`
(src/chunk.rs, lines 119-120): nothing present, only IHDR authorized. -/
def initialSets : Finset ChunkType × Finset ChunkType := (∅, {ChunkType.IHDR})

/-- The `try_fold` of `validate_chunk_constraints` (src/chunk.rs, line 121-123),
short-circuiting on the first error. -/
def runValidate (s : Finset ChunkType × Finset ChunkType) :
    List ChunkType → Except String (Finset ChunkType × Finset ChunkType)
  | [] => .ok s
  | c :: rest =>
    match validate_chunk s c with
    | .ok s2 => runValidate s2 rest
    | .error e => .error e

/-- `validate_chunk_constraints` (src/chunk.rs, lines 114-125): folds
`validate_chunk` from `initialSets` and returns the chunk list on success. -/
def validate_chunk_constraints (chunks : List ChunkType) : Except String (List ChunkType) :=
  match runValidate initialSets chunks with
  | .ok _ => .ok chunks
  | .error e => .error e

/-! Invariant lemmas for the validation fold.  `step_*` lemmas describe a
single successful `validate_chunk` transition; `runValidate_*` lemmas lift
them over the fold. -/

lemma mem_authorized_of_ok {s : Finset ChunkType × Finset ChunkType} {c : ChunkType}
    {s2 : Finset ChunkType × Finset ChunkType}
    (h : validate_chunk s c = .ok s2) : c ∈ s.2 := by
  by_cases hc : c ∈ s.2
  · exact hc
  · simp only [validate_chunk, hc, if_false] at h
    exact Except.noConfusion h

lemma step_auth_IHDR {s s2 : Finset ChunkType × Finset ChunkType} {c : ChunkType}
    (h : validate_chunk s c = .ok s2) (hI : ChunkType.IHDR ∉ s.2) :
    ChunkType.IHDR ∉ s2.2 := by
  have hmem := mem_authorized_of_ok h
  cases c <;> simp only [validate_chunk, hmem, if_true] at h <;>
    first
      | exact absurd hmem hI
      | exact Except.noConfusion h
      | ((try split_ifs at h) <;> (rw [Except.ok.injEq] at h; subst h; simp_all [Finset.mem_insert, Finset.mem_erase, Finset.mem_sdiff, START_CHUNKS, BEFORE_PLTE_CHUNKS, BEFORE_IDAT_CHUNKS]))

lemma step_auth_PLTE {s s2 : Finset ChunkType × Finset ChunkType} {c : ChunkType}
    (h : validate_chunk s c = .ok s2) (hI : ChunkType.IHDR ∉ s.2)
    (hP : ChunkType.PLTE ∉ s.2) :
    ChunkType.PLTE ∉ s2.2 := by
  have hmem := mem_authorized_of_ok h
  cases c <;> simp only [validate_chunk, hmem, if_true] at h <;>
    first
      | exact absurd hmem hI
      | exact absurd hmem hP
      | exact Except.noConfusion h
      | ((try split_ifs at h) <;> (rw [Except.ok.injEq] at h; subst h; simp_all [Finset.mem_insert, Finset.mem_erase, Finset.mem_sdiff, START_CHUNKS, BEFORE_PLTE_CHUNKS, BEFORE_IDAT_CHUNKS]))

lemma step_present_mono {s s2 : Finset ChunkType × Finset ChunkType} {c : ChunkType}
    (h : validate_chunk s c = .ok s2) : s.1 ⊆ s2.1 := by
  have hmem := mem_authorized_of_ok h
  cases c <;> simp only [validate_chunk, hmem, if_true] at h <;>
    first
      | exact Except.noConfusion h
      | ((try split_ifs at h) <;> (rw [Except.ok.injEq] at h; subst h; first | exact Finset.Subset.refl _ | exact Finset.subset_insert _ _))

lemma step_J {s s2 : Finset ChunkType × Finset ChunkType} {c : ChunkType}
    (h : validate_chunk s c = .ok s2) (hI : ChunkType.IHDR ∉ s.2)
    (hJ : ChunkType.IDAT ∈ s.1 → ChunkType.PLTE ∉ s.2) :
    ChunkType.IDAT ∈ s2.1 → ChunkType.PLTE ∉ s2.2 := by
  have hmem := mem_authorized_of_ok h
  cases c <;> simp only [validate_chunk, hmem, if_true] at h <;>
    first
      | exact absurd hmem hI
      | exact Except.noConfusion h
      | ((try split_ifs at h) <;> (rw [Except.ok.injEq] at h; subst h; simp_all [Finset.mem_insert, Finset.mem_erase, Finset.mem_sdiff, START_CHUNKS, BEFORE_PLTE_CHUNKS, BEFORE_IDAT_CHUNKS]))

lemma validate_chunk_unknown_ne {s s2 : Finset ChunkType × Finset ChunkType}
    {a b c d : Nat} (h : validate_chunk s (ChunkType.Unknown a b c d) = .ok s2) : False := by
  by_cases hc : ChunkType.Unknown a b c d ∈ s.2 <;>
    simp only [validate_chunk, hc, if_true, if_false] at h <;> exact Except.noConfusion h

lemma step_PLTE_shape {s s2 : Finset ChunkType × Finset ChunkType}
    (h : validate_chunk s ChunkType.PLTE = .ok s2) :
    s2.2 = s.2 \ BEFORE_PLTE_CHUNKS := by
  have hmem := mem_authorized_of_ok h
  simp only [validate_chunk, hmem, if_true] at h
  rw [Except.ok.injEq] at h
  subst h
  rfl

lemma step_IDAT_present {s s2 : Finset ChunkType × Finset ChunkType}
    (h : validate_chunk s ChunkType.IDAT = .ok s2) : ChunkType.IDAT ∈ s2.1 := by
  have hmem := mem_authorized_of_ok h
  simp only [validate_chunk, hmem, if_true] at h
  split_ifs at h with hp <;> (rw [Except.ok.injEq] at h; subst h)
  · exact hp
  · exact Finset.mem_insert_self _ _

lemma step_IEND_shape {s s2 : Finset ChunkType × Finset ChunkType}
    (h : validate_chunk s ChunkType.IEND = .ok s2) : s2.2 = ∅ := by
  have hmem := mem_authorized_of_ok h
  simp only [validate_chunk, hmem, if_true] at h
  rw [Except.ok.injEq] at h
  subst h
  rfl

lemma step_IHDR_shape {s s2 : Finset ChunkType × Finset ChunkType}
    (h : validate_chunk s ChunkType.IHDR = .ok s2) :
    s2.1 = insert ChunkType.IHDR s.1 ∧ s2.2 = START_CHUNKS := by
  have hmem := mem_authorized_of_ok h
  simp only [validate_chunk, hmem, if_true] at h
  rw [Except.ok.injEq] at h
  subst h
  exact ⟨rfl, rfl⟩

lemma runValidate_append (s : Finset ChunkType × Finset ChunkType)
    (l₁ l₂ : List ChunkType) :
    runValidate s (l₁ ++ l₂) =
      match runValidate s l₁ with
      | .ok s2 => runValidate s2 l₂
      | .error e => .error e := by
  induction l₁ generalizing s with
  | nil => rfl
  | cons c rest ih =>
    cases hv : validate_chunk s c with
    | ok s2 => simp only [List.cons_append, runValidate, hv]; exact ih s2
    | error e => simp only [List.cons_append, runValidate, hv]

lemma runValidate_preserve (P : Finset ChunkType × Finset ChunkType → Prop)
    (hstep : ∀ s c s2, P s → validate_chunk s c = .ok s2 → P s2) :
    ∀ (l : List ChunkType) s s2, P s → runValidate s l = .ok s2 → P s2 := by
  intro l
  induction l with
  | nil =>
    intro s s2 hP h
    simp only [runValidate, Except.ok.injEq] at h
    subst h
    exact hP
  | cons c rest ih =>
    intro s s2 hP h
    simp only [runValidate] at h
    cases hv : validate_chunk s c with
    | ok s3 => rw [hv] at h; exact ih s3 s2 (hstep s c s3 hP hv) h
    | error e => rw [hv] at h; exact Except.noConfusion h

lemma runValidate_blocked (P : Finset ChunkType × Finset ChunkType → Prop) (c0 : ChunkType)
    (hstep : ∀ s c s2, P s → validate_chunk s c = .ok s2 → P s2)
    (hblock : ∀ s s2, P s → validate_chunk s c0 ≠ .ok s2) :
    ∀ (l₂ l₃ : List ChunkType) s, P s → eOk (runValidate s (l₂ ++ c0 :: l₃)) = false := by
  intro l₂
  induction l₂ with
  | nil =>
    intro l₃ s hP
    simp only [List.nil_append, runValidate]
    cases hv : validate_chunk s c0 with
    | ok s3 => exact absurd hv (hblock s s3 hP)
    | error e => rfl
  | cons c rest ih =>
    intro l₃ s hP
    simp only [List.cons_append, runValidate]
    cases hv : validate_chunk s c with
    | ok s3 => exact ih l₃ s3 (hstep s c s3 hP hv)
    | error e => rfl

lemma runValidate_init_struct (l : List ChunkType) (s : Finset ChunkType × Finset ChunkType)
    (h : runValidate initialSets l = .ok s) :
    (s = initialSets ∧ l = []) ∨
      (ChunkType.IHDR ∉ s.2 ∧ (ChunkType.IDAT ∈ s.1 → ChunkType.PLTE ∉ s.2)) := by
  cases l with
  | nil =>
    simp only [runValidate, Except.ok.injEq] at h
    exact Or.inl ⟨h.symm, rfl⟩
  | cons c rest =>
    right
    simp only [runValidate] at h
    cases hv : validate_chunk initialSets c with
    | error e => rw [hv] at h; exact Except.noConfusion h
    | ok s1 =>
      rw [hv] at h
      have hc : c = ChunkType.IHDR := by
        have hm := mem_authorized_of_ok hv
        simpa [initialSets] using hm
      subst hc
      have hs1 : ChunkType.IHDR ∉ s1.2 := by
        rw [(step_IHDR_shape hv).2]
        decide
      have hs1b : ChunkType.IDAT ∈ s1.1 → ChunkType.PLTE ∉ s1.2 := by
        intro hin
        rw [(step_IHDR_shape hv).1, initialSets] at hin
        exact absurd hin (by decide)
      exact runValidate_preserve
        (fun t => ChunkType.IHDR ∉ t.2 ∧ (ChunkType.IDAT ∈ t.1 → ChunkType.PLTE ∉ t.2))
        (fun t c2 t2 hP hok => ⟨step_auth_IHDR hok hP.1, step_J hok hP.1 hP.2⟩)
        rest s1 s ⟨hs1, hs1b⟩ h

lemma eOk_vcc (l : List ChunkType) :
    eOk (validate_chunk_constraints l) = eOk (runValidate initialSets l) := by
  rw [validate_chunk_constraints]
  cases runValidate initialSets l <;> rfl

lemma first_not_IHDR_err (c : ChunkType) (hc : c ≠ ChunkType.IHDR) (l : List ChunkType) :
    eOk (runValidate initialSets (c :: l)) = false := by
  simp only [runValidate]
  cases hv : validate_chunk initialSets c with
  | ok s1 =>
    exfalso
    have hm := mem_authorized_of_ok hv
    simp only [initialSets, Finset.mem_singleton] at hm
    exact hc hm
  | error e => rfl

lemma runValidate_cons_ok {s s1 : Finset ChunkType × Finset ChunkType} {c : ChunkType}
    {l : List ChunkType} (hv : validate_chunk s c = .ok s1) :
    runValidate s (c :: l) = runValidate s1 l := by
  simp only [runValidate, hv]

lemma runValidate_cons_err {s : Finset ChunkType × Finset ChunkType} {c : ChunkType}
    {l : List ChunkType} {e : String} (hv : validate_chunk s c = .error e) :
    runValidate s (c :: l) = .error e := by
  simp only [runValidate, hv]

lemma run_no_IHDR : ∀ (l : List ChunkType) (s s2 : Finset ChunkType × Finset ChunkType),
    ChunkType.IHDR ∉ s.2 → runValidate s l = .ok s2 → ChunkType.IHDR ∉ l := by
  intro l
  induction l with
  | nil => intro s s2 _ _; exact List.not_mem_nil _
  | cons c rest ih =>
    intro s s2 hI h
    simp only [runValidate] at h
    cases hv : validate_chunk s c with
    | error e => rw [hv] at h; exact Except.noConfusion h
    | ok s1 =>
      rw [hv] at h
      have hc : c ≠ ChunkType.IHDR := fun hcc => hI (hcc ▸ mem_authorized_of_ok hv)
      intro hmem
      rcases List.mem_cons.mp hmem with h1 | h2
      · exact hc h1.symm
      · exact ih s1 s2 (step_auth_IHDR hv hI) h h2

/-- C2: `validate_chunk_constraints` accepts `[IHDR, IDAT, IEND]`; it errors
on any sequence whose IDAT precedes every IHDR, on any sequence with two PLTE
chunks, on any PLTE after an IDAT, on any chunk after IEND, on an Unknown
chunk at any position, and on `[IHDR, IDAT, tEXt, IDAT, IEND]` (a tEXt chunk
between two IDAT chunks). -/
theorem validate_chunk_constraints_cases :
    eOk (validate_chunk_constraints [ChunkType.IHDR, ChunkType.IDAT, ChunkType.IEND]) = true
    ∧ (∀ l₁ l₂ : List ChunkType, ChunkType.IHDR ∉ l₁ →
        eOk (validate_chunk_constraints (l₁ ++ ChunkType.IDAT :: l₂)) = false)
    ∧ (∀ l₁ l₂ l₃ : List ChunkType,
        eOk (validate_chunk_constraints
          (l₁ ++ ChunkType.PLTE :: (l₂ ++ ChunkType.PLTE :: l₃))) = false)
    ∧ (∀ l₁ l₂ l₃ : List ChunkType,
        eOk (validate_chunk_constraints
          (l₁ ++ ChunkType.IDAT :: (l₂ ++ ChunkType.PLTE :: l₃))) = false)
    ∧ (∀ (l₁ l₂ : List ChunkType) (c : ChunkType),
        eOk (validate_chunk_constraints (l₁ ++ ChunkType.IEND :: c :: l₂)) = false)
    ∧ (∀ (l₁ l₂ : List ChunkType) (a b cc d : Nat),
        eOk (validate_chunk_constraints (l₁ ++ ChunkType.Unknown a b cc d :: l₂)) = false)
    ∧ eOk (validate_chunk_constraints
        [ChunkType.IHDR, ChunkType.IDAT, ChunkType.tEXt, ChunkType.IDAT,
         ChunkType.IEND]) = false := by
  refine ⟨by decide, ?_, ?_, ?_, ?_, ?_, by decide⟩
  · -- IDAT before any IHDR
    intro l₁ l₂ hni
    rw [eOk_vcc]
    cases l₁ with
    | nil => exact first_not_IHDR_err ChunkType.IDAT (by decide) l₂
    | cons c rest =>
      have hc : c ≠ ChunkType.IHDR := fun hcc => hni (hcc ▸ List.mem_cons_self c rest)
      simpa only [List.cons_append] using
        first_not_IHDR_err c hc (rest ++ ChunkType.IDAT :: l₂)
  · -- two PLTE chunks
    intro l₁ l₂ l₃
    rw [eOk_vcc, runValidate_append]
    cases hv : runValidate initialSets l₁ with
    | error e => rfl
    | ok s1 =>
      show eOk (runValidate s1 (ChunkType.PLTE :: (l₂ ++ ChunkType.PLTE :: l₃))) = false
      cases hv2 : validate_chunk s1 ChunkType.PLTE with
      | error e => rw [runValidate_cons_err hv2]; rfl
      | ok s2 =>
        rw [runValidate_cons_ok hv2]
        rcases runValidate_init_struct l₁ s1 hv with ⟨hs1, -⟩ | hinv
        · exfalso
          rw [hs1] at hv2
          have hm := mem_authorized_of_ok hv2
          simp only [initialSets, Finset.mem_singleton] at hm
          exact ChunkType.noConfusion hm
        · have hP2 : ChunkType.IHDR ∉ s2.2 ∧ ChunkType.PLTE ∉ s2.2 := by
            refine ⟨step_auth_IHDR hv2 hinv.1, ?_⟩
            rw [step_PLTE_shape hv2]
            simp only [Finset.mem_sdiff]
            intro hcon
            exact hcon.2 (by decide)
          exact runValidate_blocked
            (fun t => ChunkType.IHDR ∉ t.2 ∧ ChunkType.PLTE ∉ t.2) ChunkType.PLTE
            (fun t c2 t2 hP hok =>
              ⟨step_auth_IHDR hok hP.1, step_auth_PLTE hok hP.1 hP.2⟩)
            (fun t t2 hP hok => hP.2 (mem_authorized_of_ok hok))
            l₂ l₃ s2 hP2
  · -- PLTE after IDAT
    intro l₁ l₂ l₃
    rw [eOk_vcc, runValidate_append]
    cases hv : runValidate initialSets l₁ with
    | error e => rfl
    | ok s1 =>
      show eOk (runValidate s1 (ChunkType.IDAT :: (l₂ ++ ChunkType.PLTE :: l₃))) = false
      cases hv2 : validate_chunk s1 ChunkType.IDAT with
      | error e => rw [runValidate_cons_err hv2]; rfl
      | ok s2 =>
        rw [runValidate_cons_ok hv2]
        rcases runValidate_init_struct l₁ s1 hv with ⟨hs1, -⟩ | hinv
        · exfalso
          rw [hs1] at hv2
          have hm := mem_authorized_of_ok hv2
          simp only [initialSets, Finset.mem_singleton] at hm
          exact ChunkType.noConfusion hm
        · have hK : (ChunkType.IHDR ∉ s2.2 ∧
              (ChunkType.IDAT ∈ s2.1 → ChunkType.PLTE ∉ s2.2)) ∧
              ChunkType.IDAT ∈ s2.1 :=
            ⟨⟨step_auth_IHDR hv2 hinv.1, step_J hv2 hinv.1 hinv.2⟩,
              step_IDAT_present hv2⟩
          exact runValidate_blocked
            (fun t => (ChunkType.IHDR ∉ t.2 ∧
              (ChunkType.IDAT ∈ t.1 → ChunkType.PLTE ∉ t.2)) ∧ ChunkType.IDAT ∈ t.1)
            ChunkType.PLTE
            (fun t c2 t2 hP hok =>
              ⟨⟨step_auth_IHDR hok hP.1.1, step_J hok hP.1.1 hP.1.2⟩,
                step_present_mono hok hP.2⟩)
            (fun t t2 hP hok => hP.1.2 hP.2 (mem_authorized_of_ok hok))
            l₂ l₃ s2 hK
  · -- any chunk after IEND
    intro l₁ l₂ c
    rw [eOk_vcc, runValidate_append]
    cases hv : runValidate initialSets l₁ with
    | error e => rfl
    | ok s1 =>
      show eOk (runValidate s1 (ChunkType.IEND :: c :: l₂)) = false
      cases hv2 : validate_chunk s1 ChunkType.IEND with
      | error e => rw [runValidate_cons_err hv2]; rfl
      | ok s2 =>
        rw [runValidate_cons_ok hv2]
        cases hv3 : validate_chunk s2 c with
        | error e => rw [runValidate_cons_err hv3]; rfl
        | ok s3 =>
          exfalso
          have hm := mem_authorized_of_ok hv3
          rw [step_IEND_shape hv2] at hm
          exact Finset.not_mem_empty c hm
  · -- an Unknown chunk anywhere
    intro l₁ l₂ a b cc d
    rw [eOk_vcc]
    exact runValidate_blocked (fun _ => True) (ChunkType.Unknown a b cc d)
      (fun _ _ _ _ _ => trivial)
      (fun t t2 _ hok => validate_chunk_unknown_ne hok)
      l₁ l₂ initialSets trivial

/-- Witness for C2: the universally quantified rejection clauses applied at
concrete sequences. -/
theorem validate_chunk_constraints_cases_witness :
    eOk (validate_chunk_constraints ([ChunkType.tEXt] ++ ChunkType.IDAT :: [])) = false ∧
    eOk (validate_chunk_constraints
      ([ChunkType.IHDR] ++ ChunkType.Unknown 1 2 3 4 :: [])) = false :=
  ⟨validate_chunk_constraints_cases.2.1 [ChunkType.tEXt] [] (by decide),
   validate_chunk_constraints_cases.2.2.2.2.2.1 [ChunkType.IHDR] [] 1 2 3 4⟩

/-- C6: in any validation state whose `authorized` set is empty — as it
becomes after IEND, and in particular in every such state reachable from
`initialSets` — processing any further chunk of any type errors, so no
transition can ever make the authorized set non-empty again. -/
theorem authorized_empty_absorbs :
    (∀ (present : Finset ChunkType) (c : ChunkType),
        eOk (validate_chunk (present, (∅ : Finset ChunkType)) c) = false) ∧
    (∀ (present : Finset ChunkType) (c : ChunkType) (l : List ChunkType),
        eOk (runValidate (present, (∅ : Finset ChunkType)) (c :: l)) = false) := by
  have h1 : ∀ (present : Finset ChunkType) (c : ChunkType),
      eOk (validate_chunk (present, (∅ : Finset ChunkType)) c) = false := by
    intro p c
    cases hv : validate_chunk (p, (∅ : Finset ChunkType)) c with
    | ok s2 =>
      exfalso
      exact Finset.not_mem_empty c (mem_authorized_of_ok hv)
    | error e => rfl
  refine ⟨h1, fun p c l => ?_⟩
  simp only [runValidate]
  cases hv : validate_chunk (p, (∅ : Finset ChunkType)) c with
  | ok s2 =>
    exfalso
    exact Finset.not_mem_empty c (mem_authorized_of_ok hv)
  | error e => rfl

/-- C7: every non-empty chunk sequence accepted by
`validate_chunk_constraints` starts with IHDR, and IHDR occurs exactly once
in it. -/
theorem ihdr_first_and_unique (l : List ChunkType) (hne : l ≠ [])
    (hok : eOk (validate_chunk_constraints l) = true) :
    l.head? = some ChunkType.IHDR ∧ l.count ChunkType.IHDR = 1 := by
  cases l with
  | nil => exact absurd rfl hne
  | cons c rest =>
    rw [eOk_vcc] at hok
    cases hv : runValidate initialSets (c :: rest) with
    | error e => rw [hv] at hok; exact Bool.noConfusion hok
    | ok s2 =>
      have hstep := hv
      simp only [runValidate] at hstep
      cases hv2 : validate_chunk initialSets c with
      | error e => rw [hv2] at hstep; exact Except.noConfusion hstep
      | ok s1 =>
        rw [hv2] at hstep
        have hc : c = ChunkType.IHDR := by
          have hm := mem_authorized_of_ok hv2
          simpa [initialSets] using hm
        subst hc
        have hnI : ChunkType.IHDR ∉ rest := by
          refine run_no_IHDR rest s1 s2 ?_ hstep
          rw [(step_IHDR_shape hv2).2]
          decide
        refine ⟨rfl, ?_⟩
        rw [List.count_cons_self, List.count_eq_zero.mpr hnI]

/-- Witness for C7 at the accepted sequence `[IHDR, IDAT, IEND]`. -/
theorem ihdr_first_and_unique_witness :
    ([ChunkType.IHDR, ChunkType.IDAT, ChunkType.IEND].head? = some ChunkType.IHDR ∧
      [ChunkType.IHDR, ChunkType.IDAT, ChunkType.IEND].count ChunkType.IHDR = 1) :=
  ihdr_first_and_unique [ChunkType.IHDR, ChunkType.IDAT, ChunkType.IEND]
    (by decide) (by decide)

/-- C10: `validate_chunk_constraints` does not require a terminating IEND:
the empty sequence is accepted, `[IHDR, IDAT]` is accepted, and more generally
every prefix of an accepted sequence is accepted. -/
theorem no_trailing_iend_required :
    eOk (validate_chunk_constraints []) = true ∧
    eOk (validate_chunk_constraints [ChunkType.IHDR, ChunkType.IDAT]) = true ∧
    (∀ l₁ l₂ : List ChunkType, eOk (validate_chunk_constraints (l₁ ++ l₂)) = true →
      eOk (validate_chunk_constraints l₁) = true) := by
  refine ⟨by decide, by decide, fun l₁ l₂ h => ?_⟩
  rw [eOk_vcc] at h ⊢
  rw [runValidate_append] at h
  cases hv : runValidate initialSets l₁ with
  | ok s1 => rfl
  | error e => rw [hv] at h; simp [eOk] at h

/-- Witness for C10: the prefix clause applied at `[IHDR] ++ [IDAT]`. -/
theorem no_trailing_iend_required_witness :
    eOk (validate_chunk_constraints [ChunkType.IHDR]) = true :=
  no_trailing_iend_required.2.2 [ChunkType.IHDR] [ChunkType.IDAT] (by decide)

/-! ### Chunk framing (src/png.rs `parse_chunks`, src/chunk.rs `Chunk::parse`) -/

/-- The PNG signature (src/png.rs, line 32). -/
def SIGNATURE : List Nat := [137, 80, 78, 71, 13, 10, 26, 10]

/-- Big-endian u32 from four bytes (`nom::number::complete::be_u32`). -/
def u32be (b0 b1 b2 b3 : Nat) : Nat := ((b0 * 256 + b1) * 256 + b2) * 256 + b3

/-- `Chunk` (src/chunk.rs, lines 9-14); `data` is the payload view. -/
structure Chunk where
  length : Nat
  chunk_type : ChunkType
  data : List Nat
  crc : List Nat
deriving DecidableEq, Repr

/-- `From<[char; 4]> for ChunkType` (src/chunk.rs, lines 86-110) on the tag
bytes; byte-to-char conversion is injective on u8, so matching the byte
values of the ASCII names is an exact model. -/
def chunkTypeOf (a b c d : Nat) : ChunkType :=
  if a = 73 ∧ b = 72 ∧ c = 68 ∧ d = 82 then ChunkType.IHDR
  else if a = 80 ∧ b = 76 ∧ c = 84 ∧ d = 69 then ChunkType.PLTE
  else if a = 73 ∧ b = 68 ∧ c = 65 ∧ d = 84 then ChunkType.IDAT
  else if a = 73 ∧ b = 69 ∧ c = 78 ∧ d = 68 then ChunkType.IEND
  else if a = 116 ∧ b = 82 ∧ c = 78 ∧ d = 83 then ChunkType.tRNS
  else if a = 103 ∧ b = 65 ∧ c = 77 ∧ d = 65 then ChunkType.gAMA
  else if a = 99 ∧ b = 72 ∧ c = 82 ∧ d = 77 then ChunkType.cHRM
  else if a = 115 ∧ b = 82 ∧ c = 71 ∧ d = 66 then ChunkType.sRGB
  else if a = 105 ∧ b = 67 ∧ c = 67 ∧ d = 80 then ChunkType.iCCP
  else if a = 116 ∧ b = 69 ∧ c = 88 ∧ d = 116 then ChunkType.tEXt
  else if a = 122 ∧ b = 84 ∧ c = 88 ∧ d = 116 then ChunkType.zTXt
  else if a = 105 ∧ b = 84 ∧ c = 88 ∧ d = 116 then ChunkType.iTXt
  else if a = 98 ∧ b = 75 ∧ c = 71 ∧ d = 68 then ChunkType.bKGD
  else if a = 112 ∧ b = 72 ∧ c = 89 ∧ d = 115 then ChunkType.pHYs
  else if a = 115 ∧ b = 66 ∧ c = 73 ∧ d = 84 then ChunkType.sBIT
  else if a = 115 ∧ b = 80 ∧ c = 76 ∧ d = 84 then ChunkType.sPLT
  else if a = 104 ∧ b = 73 ∧ c = 83 ∧ d = 84 then ChunkType.hIST
  else if a = 116 ∧ b = 73 ∧ c = 77 ∧ d = 69 then ChunkType.tIME
  else ChunkType.Unknown a b c d

/-- `Chunk::parse` (src/chunk.rs, lines 63-82): 4-byte big-endian length,
4-byte type, `length` data bytes, 4-byte crc; every `nom` combinator used is
`complete`, so insufficient input is an error (`none`).  Success requires
`input.length ≥ 12 + length`. -/
def Chunk.parse (input : List Nat) : Option (List Nat × Chunk) :=
  match input with
  | b0 :: b1 :: b2 :: b3 :: t0 :: t1 :: t2 :: t3 :: rest =>
    let length := u32be b0 b1 b2 b3
    if length + 4 ≤ rest.length then
      some (rest.drop (length + 4),
        { length := length
          chunk_type := chunkTypeOf t0 t1 t2 t3
          data := rest.take length
          crc := (rest.drop length).take 4 })
    else none
  | _ => none

/-- The loop of `nom::multi::many1`: keep applying `Chunk::parse` until it
fails, returning the leftover input and the parsed chunks.  A successful
`Chunk::parse` consumes at least 12 bytes, so `fuel = input.length` (as used
by `parse_chunks` below) never runs out before the parser fails. -/
def manyChunksGo : Nat → List Nat → List Chunk → List Nat × List Chunk
  | 0, input, acc => (input, acc)
  | fuel + 1, input, acc =>
    match Chunk.parse input with
    | none => (input, acc)
    | some (rest, c) => manyChunksGo fuel rest (acc ++ [c])

/-- `parse_chunks` (src/png.rs, lines 171-174): consume the 8-byte signature,
then `many1(Chunk::parse)` — at least one chunk must parse, further chunks are
consumed until the first parse failure, and any leftover bytes are returned
unconsumed rather than reported as an error. -/
def parse_chunks (input : List Nat) : Option (List Nat × List Chunk) :=
  if input.take 8 = SIGNATURE then
    match Chunk.parse (input.drop 8) with
    | none => none
    | some (rest, c) => some (manyChunksGo rest.length rest [c])
  else none

lemma chunk_parse_none_of_short (t : List Nat)
    (h : t.length < 12 + u32be (t.getD 0 0) (t.getD 1 0) (t.getD 2 0) (t.getD 3 0)) :
    Chunk.parse t = none := by
  rcases t with _ | ⟨b0, _ | ⟨b1, _ | ⟨b2, _ | ⟨b3, _ | ⟨t0, _ | ⟨t1, _ | ⟨t2, _ | ⟨t3, rest⟩⟩⟩⟩⟩⟩⟩⟩ <;>
    try rfl
  simp only [List.getD_cons_zero, List.getD_cons_succ, List.length_cons] at h
  simp only [Chunk.parse]
  rw [if_neg]
  omega

/-- C4 (amended): if the 8-byte signature is followed by a FIRST chunk whose
declared length exceeds the remaining input or whose length/type/crc field is
truncated (equivalently, fewer than `12 + declared-length` bytes remain),
`parse_chunks` returns an error. -/
theorem parse_chunks_rejects_bad_first_chunk (tail : List Nat)
    (h : tail.length <
      12 + u32be (tail.getD 0 0) (tail.getD 1 0) (tail.getD 2 0) (tail.getD 3 0)) :
    (parse_chunks (SIGNATURE ++ tail)).isSome = false := by
  have htake : (SIGNATURE ++ tail).take 8 = SIGNATURE := by
    rw [show (8 : Nat) = SIGNATURE.length from rfl, List.take_left]
  have hdrop : (SIGNATURE ++ tail).drop 8 = tail := by
    rw [show (8 : Nat) = SIGNATURE.length from rfl, List.drop_left]
  simp only [parse_chunks, htake, hdrop, if_true, chunk_parse_none_of_short tail h]
  rfl

/-- Witness for the amended C4: a stream whose first chunk declares length 10
with no bytes following the length field. -/
theorem parse_chunks_rejects_bad_first_chunk_witness :
    ([0, 0, 0, 10] : List Nat).length <
      12 + u32be (([0, 0, 0, 10] : List Nat).getD 0 0) (([0, 0, 0, 10] : List Nat).getD 1 0)
        (([0, 0, 0, 10] : List Nat).getD 2 0) (([0, 0, 0, 10] : List Nat).getD 3 0) ∧
    (parse_chunks (SIGNATURE ++ [0, 0, 0, 10])).isSome = false :=
  ⟨by decide, parse_chunks_rejects_bad_first_chunk [0, 0, 0, 10] (by decide)⟩

/-- A stream whose first chunk (an empty IHDR) is well-formed and whose second
chunk declares length 10 = `u32be 0 0 0 10` while only 3 data bytes remain. -/
def laterTruncatedStream : List Nat :=
  SIGNATURE ++ ([0, 0, 0, 0] ++ [73, 72, 68, 82] ++ [0, 0, 0, 0]) ++
    ([0, 0, 0, 10] ++ [73, 68, 65, 84] ++ [1, 2, 3])

/-- C4 (counterexample): `laterTruncatedStream` starts with the valid
signature and contains a chunk (its second) whose declared length exceeds the
remaining input — `Chunk::parse` fails on it — yet `parse_chunks` SUCCEEDS,
returning the first chunk and leaving the malformed tail unconsumed, because
`many1` stops at the first failure instead of propagating it. -/
theorem parse_chunks_later_truncation_succeeds :
    (Chunk.parse ((laterTruncatedStream.drop 8).drop 12)).isSome = false ∧
    (parse_chunks laterTruncatedStream).isSome = true := by decide

/-! ### The Png raster and its accessor (src/png.rs, src/color.rs) -/

/-- `ColorType` (src/color.rs, lines 3-10). -/
inductive ColorType
  | Gray
  | RGB
  | PLTE
  | GrayAlpha
  | RGBA
deriving DecidableEq, Repr

/-- `Png` (src/png.rs, lines 15-21). -/
structure Png where
  width : Nat
  height : Nat
  color_type : ColorType
  bytes_per_pixel : Nat
  data : List Nat
deriving DecidableEq, Repr

/-- `Png::get` (src/png.rs, lines 23-30): a range slice
`data[start..start + bytes_per_pixel]` with
`start = y * line_width + x * bytes_per_pixel` and
`line_width = bytes_per_pixel * width`.  The index arithmetic is `usize`,
which wraps modulo `2^64` in release builds, so every product and sum is
reduced modulo `2^64`.  Rust panics (modelled as `none`) exactly when the
range is inverted or its end exceeds the buffer length. -/
def Png.get (png : Png) (x y : Nat) : Option (List Nat) :=
  let line_width := (png.bytes_per_pixel * png.width) % 2 ^ 64
  let start := (y * line_width + x * png.bytes_per_pixel) % 2 ^ 64
  let finish := (start + png.bytes_per_pixel) % 2 ^ 64
  if start ≤ finish ∧ finish ≤ png.data.length then
    some ((png.data.drop start).take (finish - start))
  else none

/-- When no `usize` wrap occurs, `Png::get` is the unwrapped range slice. -/
lemma png_get_of_no_wrap (png : Png) (x y : Nat)
    (h1 : png.bytes_per_pixel * png.width < 2 ^ 64)
    (h2 : y * (png.bytes_per_pixel * png.width) + x * png.bytes_per_pixel +
      png.bytes_per_pixel < 2 ^ 64) :
    png.get x y =
      if y * (png.bytes_per_pixel * png.width) + x * png.bytes_per_pixel +
          png.bytes_per_pixel ≤ png.data.length then
        some ((png.data.drop (y * (png.bytes_per_pixel * png.width) +
          x * png.bytes_per_pixel)).take png.bytes_per_pixel)
      else none := by
  have e1 : (png.bytes_per_pixel * png.width) % 2 ^ 64 =
      png.bytes_per_pixel * png.width := Nat.mod_eq_of_lt h1
  have hS : y * (png.bytes_per_pixel * png.width) + x * png.bytes_per_pixel < 2 ^ 64 :=
    Nat.lt_of_le_of_lt (Nat.le_add_right _ _) h2
  have e2 : (y * (png.bytes_per_pixel * png.width) + x * png.bytes_per_pixel) % 2 ^ 64 =
      y * (png.bytes_per_pixel * png.width) + x * png.bytes_per_pixel :=
    Nat.mod_eq_of_lt hS
  have e3 : (y * (png.bytes_per_pixel * png.width) + x * png.bytes_per_pixel +
      png.bytes_per_pixel) % 2 ^ 64 =
      y * (png.bytes_per_pixel * png.width) + x * png.bytes_per_pixel +
        png.bytes_per_pixel := Nat.mod_eq_of_lt h2
  simp only [Png.get, e1, e2, e3, Nat.le_add_right, true_and, Nat.add_sub_cancel_left]

/-- C8 (amended): `Png::get` is buffer-bounds-checked, not (x, y)-checked.
When `data.length = width * height * bytes_per_pixel`, `bytes_per_pixel ≥ 1`
and the buffer length fits a `usize`, `get` returns exactly the
`bytes_per_pixel` bytes at row-major offset
`(y * width + x) * bytes_per_pixel` for every in-range `(x, y)`, and fails
for every `y ≥ height` whose index computation does not wrap `usize`
arithmetic; an out-of-range `x` whose computed slice still fits in the
buffer, or a huge `y` whose `usize` index computation wraps back into the
buffer, returns a byte slice instead of failing (see the counterexample). -/
theorem png_get_amended (png : Png)
    (hdata : png.data.length = png.width * png.height * png.bytes_per_pixel)
    (hbpp : 1 ≤ png.bytes_per_pixel)
    (hfit : png.data.length < 2 ^ 64) :
    (∀ x y, x < png.width → y < png.height →
      png.get x y =
        some ((png.data.drop ((y * png.width + x) * png.bytes_per_pixel)).take
          png.bytes_per_pixel)) ∧
    (∀ x y, png.height ≤ y →
      png.bytes_per_pixel * png.width < 2 ^ 64 →
      y * (png.bytes_per_pixel * png.width) + x * png.bytes_per_pixel +
        png.bytes_per_pixel < 2 ^ 64 →
      png.get x y = none) := by
  constructor
  · intro x y hx hy
    have hyw : png.width * (y + 1) ≤ png.width * png.height :=
      Nat.mul_le_mul_left _ (by omega)
    have h1 : y * png.width + x + 1 ≤ png.width * png.height := by nlinarith [hyw, hx]
    have hle : (y * png.width + x + 1) * png.bytes_per_pixel ≤ png.data.length := by
      rw [hdata]
      exact Nat.mul_le_mul h1 (le_refl _)
    have hcond : y * (png.bytes_per_pixel * png.width) + x * png.bytes_per_pixel +
        png.bytes_per_pixel ≤ png.data.length := by
      have he : y * (png.bytes_per_pixel * png.width) + x * png.bytes_per_pixel +
          png.bytes_per_pixel = (y * png.width + x + 1) * png.bytes_per_pixel := by ring
      rw [he]
      exact hle
    have hlw_le : png.bytes_per_pixel * png.width ≤ png.data.length := by
      rw [hdata]
      have hh : png.bytes_per_pixel * png.width * 1 ≤
          png.bytes_per_pixel * png.width * png.height :=
        Nat.mul_le_mul_left _ (by omega)
      calc png.bytes_per_pixel * png.width
          = png.bytes_per_pixel * png.width * 1 := by ring
        _ ≤ png.bytes_per_pixel * png.width * png.height := hh
        _ = png.width * png.height * png.bytes_per_pixel := by ring
    have hidx : y * (png.bytes_per_pixel * png.width) + x * png.bytes_per_pixel =
        (y * png.width + x) * png.bytes_per_pixel := by ring
    rw [png_get_of_no_wrap png x y (Nat.lt_of_le_of_lt hlw_le hfit)
      (Nat.lt_of_le_of_lt hcond hfit), if_pos hcond, hidx]
  · intro x y hy hw1 hw2
    have h1 : png.height * (png.bytes_per_pixel * png.width) ≤
        y * (png.bytes_per_pixel * png.width) :=
      Nat.mul_le_mul hy (le_refl _)
    rw [png_get_of_no_wrap png x y hw1 hw2, if_neg]
    intro hcon
    rw [hdata] at hcon
    nlinarith [hcon, h1, hbpp, Nat.zero_le (x * png.bytes_per_pixel)]

/-- A 2×2 grayscale raster with one byte per pixel. -/
def pngSample : Png :=
  { width := 2, height := 2, color_type := ColorType.Gray,
    bytes_per_pixel := 1, data := [1, 2, 3, 4] }

/-- C8 (counterexample): on `pngSample` (whose data length is exactly
`width * height * bytes_per_pixel`), the access `get 2 0` has `x = 2 ≥ width`
yet returns the byte slice `[3]` — the first pixel of the next row — because
`Png::get` only checks the computed range against the buffer end; and the
access `get 0 (2^63)` has `y = 2^63 ≥ height` yet returns `[1]`, because the
release-mode `usize` computation `y * line_width` wraps `2^63 * 2` to 0. -/
theorem png_get_x_overflow_returns_pixel :
    pngSample.data.length =
      pngSample.width * pngSample.height * pngSample.bytes_per_pixel ∧
    pngSample.width ≤ 2 ∧
    pngSample.get 2 0 = some [3] ∧
    pngSample.height ≤ 2 ^ 63 ∧
    pngSample.get 0 (2 ^ 63) = some [1] := by decide

/-- Witness for the amended C8 on `pngSample`: in-range access `(1, 1)` reads
the last pixel, out-of-range row `y = 2` (whose index arithmetic does not
wrap) fails. -/
theorem png_get_amended_witness :
    pngSample.get 1 1 =
      some ((pngSample.data.drop
        ((1 * pngSample.width + 1) * pngSample.bytes_per_pixel)).take
        pngSample.bytes_per_pixel) ∧
    pngSample.get 0 2 = none :=
  ⟨(png_get_amended pngSample (by decide) (by decide) (by decide)).1 1 1
      (by decide) (by decide),
   (png_get_amended pngSample (by decide) (by decide) (by decide)).2 0 2
      (by decide) (by decide) (by decide)⟩

/-! ### IDAT inflation orchestration (src/chunk_data.rs `inflate_idats`)

The decompressor (`miniz_oxide::inflate::core::decompress`) is an external
collaborator; each invocation is modelled by the next entry of an abstract
call trace giving the returned status and the input/output byte counts (spec
§6: status plus counts of input consumed and output produced).  The
destination buffer's byte content is written by the decompressor and is not
modelled; its length, the only thing the control flow inspects, is tracked
exactly. -/

/-- `miniz_oxide::inflate::TINFLStatus`. -/
inductive TINFLStatus
  | FailedCannotMakeProgress
  | BadParam
  | Adler32Mismatch
  | Failed
  | Done
  | NeedsMoreInput
  | HasMoreOutput
deriving DecidableEq, Repr

/-- One `decompress` invocation's result: status, input bytes consumed,
output bytes produced. -/
structure InflateCall where
  status : TINFLStatus
  in_consumed : Nat
  out_consumed : Nat
deriving DecidableEq, Repr

/-- Result of the inner per-chunk loop of `inflate_idats`: `Done` returns the
truncated buffer length, `NeedsMoreInput` on a non-final chunk breaks to the
next chunk, anything else is an error. -/
inductive ChunkLoopResult
  | finished (finalLen : Nat)
  | nextChunk (trace : List InflateCall) (out_pos buf_len : Nat)
  | failed (msg : String)
deriving Repr

/-- The inner `loop` of `inflate_idats` (src/chunk_data.rs, lines 273-306) for
one chunk: consume one trace entry per `decompress` call; on `Done` truncate
(`ret.truncate(out_pos)`, i.e., the new length is `min out_pos buf_len`); on
`HasMoreOutput` extend the buffer by `out_pos` zero bytes and loop; on
`NeedsMoreInput` fail if this is the last chunk, otherwise break to the next
chunk; fail on every other status.  An exhausted trace is a modelling
artifact (`failed`). -/
def inflateChunkLoop (isLast : Bool) (in_pos out_pos buf_len : Nat) :
    List InflateCall → ChunkLoopResult
  | [] => .failed "decompressor trace exhausted"
  | call :: trace =>
    let in_pos2 := in_pos + call.in_consumed
    let out_pos2 := out_pos + call.out_consumed
    match call.status with
    | .Done => .finished (min out_pos2 buf_len)
    | .HasMoreOutput => inflateChunkLoop isLast in_pos2 out_pos2 (buf_len + out_pos2) trace
    | .NeedsMoreInput =>
      if isLast then .failed "NeedsMoreInput"
      else .nextChunk trace out_pos2 buf_len
    | _ => .failed "decompressor error status"

/-- The outer `for` loop of `inflate_idats` (src/chunk_data.rs, lines 265-307)
over the IDAT chunks; falling off the end returns the untruncated buffer
(its length).  Only the number of remaining chunks (`last or not`) feeds the
control flow; `in_pos` restarts at 0 for each chunk. -/
def inflateChunks (out_pos buf_len : Nat) (trace : List InflateCall) :
    List (List Nat) → Except String Nat
  | [] => .ok buf_len
  | _chunk :: rest =>
    match inflateChunkLoop rest.isEmpty 0 out_pos buf_len trace with
    | .finished n => .ok n
    | .failed e => .error e
    | .nextChunk trace2 out_pos2 buf_len2 => inflateChunks out_pos2 buf_len2 trace2 rest

/-- `inflate_idats` (src/chunk_data.rs, lines 256-309): the destination buffer
starts at twice the summed chunk lengths (a u32 sum, wrapping).  Returns the
final buffer length on success. -/
def inflate_idats (idats : List (List Nat)) (trace : List InflateCall) :
    Except String Nat :=
  let compressed_length := ((idats.map List.length).sum) % 4294967296
  inflateChunks 0 (2 * compressed_length) trace idats

/-- Total output bytes produced up to and including the first `Done` call of
a trace. -/
def producedUntilDone : List InflateCall → Nat
  | [] => 0
  | call :: trace =>
    match call.status with
    | .Done => call.out_consumed
    | _ => call.out_consumed + producedUntilDone trace

/-- The trace is physically consistent with the buffer: every call writes at
most the space available in the destination (`decompress` writes through a
cursor over the buffer tail, so its reported `out_consumed` can never exceed
that space). -/
def traceFits (out_pos buf_len : Nat) : List InflateCall → Bool
  | [] => true
  | call :: trace =>
    let out_pos2 := out_pos + call.out_consumed
    decide (out_pos2 ≤ buf_len) &&
      (match call.status with
       | .Done => true
       | .HasMoreOutput => traceFits out_pos2 (buf_len + out_pos2) trace
       | _ => traceFits out_pos2 buf_len trace)

lemma inflateChunkLoop_needsInput_last (r : InflateCall)
    (hr : r.status = TINFLStatus.NeedsMoreInput) :
    ∀ (pre : List InflateCall), (∀ x ∈ pre, x.status = TINFLStatus.HasMoreOutput) →
      ∀ (post : List InflateCall) (in_pos out_pos buf_len : Nat),
        inflateChunkLoop true in_pos out_pos buf_len (pre ++ r :: post) =
          .failed "NeedsMoreInput" := by
  intro pre
  induction pre with
  | nil =>
    intro _ post in_pos out_pos buf_len
    simp only [List.nil_append, inflateChunkLoop, hr, if_true]
  | cons x xs ih =>
    intro hall post in_pos out_pos buf_len
    have hx : x.status = TINFLStatus.HasMoreOutput := hall x (List.mem_cons_self x xs)
    simp only [List.cons_append, inflateChunkLoop, hx]
    exact ih (fun z hz => hall z (List.mem_cons_of_mem x hz)) post _ _ _

lemma inflateChunkLoop_bad_status (r : InflateCall)
    (h1 : r.status ≠ TINFLStatus.Done) (h2 : r.status ≠ TINFLStatus.HasMoreOutput)
    (h3 : r.status ≠ TINFLStatus.NeedsMoreInput) :
    ∀ (pre : List InflateCall), (∀ x ∈ pre, x.status = TINFLStatus.HasMoreOutput) →
      ∀ (post : List InflateCall) (isLast : Bool) (in_pos out_pos buf_len : Nat),
        inflateChunkLoop isLast in_pos out_pos buf_len (pre ++ r :: post) =
          .failed "decompressor error status" := by
  intro pre
  induction pre with
  | nil =>
    intro _ post isLast in_pos out_pos buf_len
    simp only [List.nil_append, inflateChunkLoop]
  | cons x xs ih =>
    intro hall post isLast in_pos out_pos buf_len
    have hx : x.status = TINFLStatus.HasMoreOutput := hall x (List.mem_cons_self x xs)
    simp only [List.cons_append, inflateChunkLoop, hx]
    exact ih (fun z hz => hall z (List.mem_cons_of_mem x hz)) post _ _ _ _

lemma inflateChunkLoop_spec (trace : List InflateCall) :
    ∀ (isLast : Bool) (in_pos out_pos buf_len : Nat),
      traceFits out_pos buf_len trace = true →
      (∀ n, inflateChunkLoop isLast in_pos out_pos buf_len trace = .finished n →
        n = out_pos + producedUntilDone trace) ∧
      (∀ tr2 o2 b2,
        inflateChunkLoop isLast in_pos out_pos buf_len trace = .nextChunk tr2 o2 b2 →
        o2 + producedUntilDone tr2 = out_pos + producedUntilDone trace ∧
          traceFits o2 b2 tr2 = true) := by
  induction trace with
  | nil =>
    intro isLast in_pos out_pos buf_len _
    exact ⟨fun n h => ChunkLoopResult.noConfusion h,
      fun tr2 o2 b2 h => ChunkLoopResult.noConfusion h⟩
  | cons call trace ih =>
    intro isLast in_pos out_pos buf_len hfit
    cases hs : call.status with
    | Done =>
      simp only [traceFits, hs, Bool.and_eq_true, decide_eq_true_eq] at hfit
      constructor
      · intro n h
        simp only [inflateChunkLoop, hs, ChunkLoopResult.finished.injEq] at h
        simp only [producedUntilDone, hs]
        omega
      · intro tr2 o2 b2 h
        simp only [inflateChunkLoop, hs] at h
        exact ChunkLoopResult.noConfusion h
    | HasMoreOutput =>
      simp only [traceFits, hs, Bool.and_eq_true, decide_eq_true_eq] at hfit
      have hrec := ih isLast (in_pos + call.in_consumed) (out_pos + call.out_consumed)
        (buf_len + (out_pos + call.out_consumed)) hfit.2
      constructor
      · intro n h
        simp only [inflateChunkLoop, hs] at h
        have := hrec.1 n h
        simp only [producedUntilDone, hs]
        omega
      · intro tr2 o2 b2 h
        simp only [inflateChunkLoop, hs] at h
        have := hrec.2 tr2 o2 b2 h
        refine ⟨?_, this.2⟩
        have h1 := this.1
        simp only [producedUntilDone, hs]
        omega
    | NeedsMoreInput =>
      simp only [traceFits, hs, Bool.and_eq_true, decide_eq_true_eq] at hfit
      constructor
      · intro n h
        simp only [inflateChunkLoop, hs] at h
        cases isLast with
        | true =>
          rw [if_pos rfl] at h
          exact ChunkLoopResult.noConfusion h
        | false =>
          rw [if_neg Bool.false_ne_true] at h
          exact ChunkLoopResult.noConfusion h
      · intro tr2 o2 b2 h
        simp only [inflateChunkLoop, hs] at h
        cases isLast with
        | true =>
          rw [if_pos rfl] at h
          exact ChunkLoopResult.noConfusion h
        | false =>
          rw [if_neg Bool.false_ne_true] at h
          simp only [ChunkLoopResult.nextChunk.injEq] at h
          obtain ⟨h1, h2, h3⟩ := h
          subst h1
          subst h2
          subst h3
          refine ⟨?_, hfit.2⟩
          simp only [producedUntilDone, hs]
          omega
    | FailedCannotMakeProgress =>
      refine ⟨fun n h => ?_, fun tr2 o2 b2 h => ?_⟩ <;>
        (simp only [inflateChunkLoop, hs] at h; exact ChunkLoopResult.noConfusion h)
    | BadParam =>
      refine ⟨fun n h => ?_, fun tr2 o2 b2 h => ?_⟩ <;>
        (simp only [inflateChunkLoop, hs] at h; exact ChunkLoopResult.noConfusion h)
    | Adler32Mismatch =>
      refine ⟨fun n h => ?_, fun tr2 o2 b2 h => ?_⟩ <;>
        (simp only [inflateChunkLoop, hs] at h; exact ChunkLoopResult.noConfusion h)
    | Failed =>
      refine ⟨fun n h => ?_, fun tr2 o2 b2 h => ?_⟩ <;>
        (simp only [inflateChunkLoop, hs] at h; exact ChunkLoopResult.noConfusion h)

lemma inflateChunkLoop_last_no_next (trace : List InflateCall) :
    ∀ (in_pos out_pos buf_len : Nat) (tr2 : List InflateCall) (o2 b2 : Nat),
      inflateChunkLoop true in_pos out_pos buf_len trace ≠ .nextChunk tr2 o2 b2 := by
  induction trace with
  | nil => intro in_pos out_pos buf_len tr2 o2 b2 h; exact ChunkLoopResult.noConfusion h
  | cons call trace ih =>
    intro in_pos out_pos buf_len tr2 o2 b2 h
    cases hs : call.status with
    | Done =>
      simp only [inflateChunkLoop, hs] at h
      exact ChunkLoopResult.noConfusion h
    | HasMoreOutput =>
      simp only [inflateChunkLoop, hs] at h
      exact ih _ _ _ _ _ _ h
    | NeedsMoreInput =>
      simp only [inflateChunkLoop, hs, if_true] at h
      exact ChunkLoopResult.noConfusion h
    | FailedCannotMakeProgress =>
      simp only [inflateChunkLoop, hs] at h
      exact ChunkLoopResult.noConfusion h
    | BadParam =>
      simp only [inflateChunkLoop, hs] at h
      exact ChunkLoopResult.noConfusion h
    | Adler32Mismatch =>
      simp only [inflateChunkLoop, hs] at h
      exact ChunkLoopResult.noConfusion h
    | Failed =>
      simp only [inflateChunkLoop, hs] at h
      exact ChunkLoopResult.noConfusion h

lemma inflateChunks_ok_length (chunks : List (List Nat)) :
    ∀ (out_pos buf_len : Nat) (trace : List InflateCall), chunks ≠ [] →
      traceFits out_pos buf_len trace = true →
      ∀ n, inflateChunks out_pos buf_len trace chunks = .ok n →
        n = out_pos + producedUntilDone trace := by
  induction chunks with
  | nil => intro _ _ _ hne; exact absurd rfl hne
  | cons chunk rest ih =>
    intro out_pos buf_len trace _ hfit n h
    simp only [inflateChunks] at h
    cases hl : inflateChunkLoop rest.isEmpty 0 out_pos buf_len trace with
    | finished m =>
      rw [hl] at h
      rw [Except.ok.injEq] at h
      subst h
      exact (inflateChunkLoop_spec trace rest.isEmpty 0 out_pos buf_len hfit).1 m hl
    | failed e => rw [hl] at h; exact Except.noConfusion h
    | nextChunk tr2 o2 b2 =>
      rw [hl] at h
      cases hrest : rest with
      | nil =>
        exfalso
        rw [hrest] at hl
        exact inflateChunkLoop_last_no_next trace _ _ _ _ _ _ hl
      | cons r2 rs =>
        have hspec := (inflateChunkLoop_spec trace rest.isEmpty 0 out_pos buf_len hfit).2
          tr2 o2 b2 hl
        have := ih o2 b2 tr2 (by rw [hrest]; exact List.cons_ne_nil r2 rs) hspec.2 n h
        omega

lemma inflateChunkLoop_in_pos (trace : List InflateCall) :
    ∀ (isLast : Bool) (p q out_pos buf_len : Nat),
      inflateChunkLoop isLast p out_pos buf_len trace =
        inflateChunkLoop isLast q out_pos buf_len trace := by
  induction trace with
  | nil => intro _ _ _ _ _; rfl
  | cons call trace ih =>
    intro isLast p q out_pos buf_len
    cases hs : call.status with
    | Done => simp only [inflateChunkLoop, hs]
    | HasMoreOutput => simp only [inflateChunkLoop, hs]; exact ih _ _ _ _ _
    | NeedsMoreInput => simp only [inflateChunkLoop, hs]
    | FailedCannotMakeProgress => simp only [inflateChunkLoop, hs]
    | BadParam => simp only [inflateChunkLoop, hs]
    | Adler32Mismatch => simp only [inflateChunkLoop, hs]
    | Failed => simp only [inflateChunkLoop, hs]

lemma inflateChunks_cons_hmo (x : InflateCall)
    (hx : x.status = TINFLStatus.HasMoreOutput) (tr : List InflateCall)
    (chunk : List Nat) (rest : List (List Nat)) (out_pos buf_len : Nat) :
    inflateChunks out_pos buf_len (x :: tr) (chunk :: rest) =
      inflateChunks (out_pos + x.out_consumed)
        (buf_len + (out_pos + x.out_consumed)) tr (chunk :: rest) := by
  simp only [inflateChunks, inflateChunkLoop, hx]
  rw [inflateChunkLoop_in_pos tr rest.isEmpty (0 + x.in_consumed) 0
    (out_pos + x.out_consumed) (buf_len + (out_pos + x.out_consumed))]

lemma inflateChunks_cons_nmi (x : InflateCall)
    (hx : x.status = TINFLStatus.NeedsMoreInput) (tr : List InflateCall)
    (chunk c2 : List Nat) (rs : List (List Nat)) (out_pos buf_len : Nat) :
    inflateChunks out_pos buf_len (x :: tr) (chunk :: c2 :: rs) =
      inflateChunks (out_pos + x.out_consumed) buf_len tr (c2 :: rs) := by
  simp only [inflateChunks, inflateChunkLoop, hx, List.isEmpty_cons,
    Bool.false_eq_true, if_false]

lemma inflateChunks_needsInput_final :
    ∀ (pre : List InflateCall),
      (∀ x ∈ pre, x.status = TINFLStatus.HasMoreOutput ∨
        x.status = TINFLStatus.NeedsMoreInput) →
      ∀ (r : InflateCall), r.status = TINFLStatus.NeedsMoreInput →
      ∀ (post : List InflateCall) (chunk : List Nat) (rest : List (List Nat)),
        pre.countP (fun z => z.status == TINFLStatus.NeedsMoreInput) =
          rest.length →
        ∀ (out_pos buf_len : Nat),
          eOk (inflateChunks out_pos buf_len (pre ++ r :: post)
            (chunk :: rest)) = false := by
  intro pre
  induction pre with
  | nil =>
    intro _ r hr post chunk rest hcount out_pos buf_len
    cases rest with
    | cons c2 rs => simp [List.countP_nil] at hcount
    | nil =>
      have hb := inflateChunkLoop_needsInput_last r hr []
        (fun z hz => absurd hz (List.not_mem_nil z)) post 0 out_pos buf_len
      rw [List.nil_append] at hb
      simp only [List.nil_append, inflateChunks, List.isEmpty_nil]
      rw [hb]
      rfl
  | cons x xs ih =>
    intro hall r hr post chunk rest hcount out_pos buf_len
    have hxs : ∀ z ∈ xs, z.status = TINFLStatus.HasMoreOutput ∨
        z.status = TINFLStatus.NeedsMoreInput :=
      fun z hz => hall z (List.mem_cons_of_mem x hz)
    cases hall x (List.mem_cons_self x xs) with
    | inl hHMO =>
      have hcount2 : xs.countP (fun z => z.status == TINFLStatus.NeedsMoreInput) =
          rest.length := by
        rw [List.countP_cons_of_neg] at hcount
        · exact hcount
        · simp [hHMO]
      rw [List.cons_append, inflateChunks_cons_hmo x hHMO (xs ++ r :: post)
        chunk rest out_pos buf_len]
      exact ih hxs r hr post chunk rest hcount2 _ _
    | inr hNMI =>
      cases rest with
      | nil =>
        exfalso
        rw [List.countP_cons_of_pos] at hcount
        · simp at hcount
        · simp [hNMI]
      | cons c2 rs =>
        have hcount2 : xs.countP (fun z => z.status == TINFLStatus.NeedsMoreInput) =
            rs.length := by
          rw [List.countP_cons_of_pos] at hcount
          · simpa using hcount
          · simp [hNMI]
        rw [List.cons_append, inflateChunks_cons_nmi x hNMI (xs ++ r :: post)
          chunk c2 rs out_pos buf_len]
        exact ih hxs r hr post c2 rs hcount2 _ _

lemma inflateChunks_reach_bad :
    ∀ (pre : List InflateCall),
      (∀ x ∈ pre, x.status = TINFLStatus.HasMoreOutput ∨
        x.status = TINFLStatus.NeedsMoreInput) →
      ∀ (r : InflateCall),
        r.status ≠ TINFLStatus.Done → r.status ≠ TINFLStatus.HasMoreOutput →
        r.status ≠ TINFLStatus.NeedsMoreInput →
      ∀ (post : List InflateCall) (chunk : List Nat) (rest : List (List Nat))
        (out_pos buf_len : Nat),
        eOk (inflateChunks out_pos buf_len (pre ++ r :: post)
          (chunk :: rest)) = false := by
  intro pre
  induction pre with
  | nil =>
    intro _ r h1 h2 h3 post chunk rest out_pos buf_len
    have hb := inflateChunkLoop_bad_status r h1 h2 h3 []
      (fun z hz => absurd hz (List.not_mem_nil z)) post rest.isEmpty 0
      out_pos buf_len
    rw [List.nil_append] at hb
    simp only [List.nil_append, inflateChunks]
    rw [hb]
    rfl
  | cons x xs ih =>
    intro hall r h1 h2 h3 post chunk rest out_pos buf_len
    have hxs : ∀ z ∈ xs, z.status = TINFLStatus.HasMoreOutput ∨
        z.status = TINFLStatus.NeedsMoreInput :=
      fun z hz => hall z (List.mem_cons_of_mem x hz)
    cases hall x (List.mem_cons_self x xs) with
    | inl hHMO =>
      rw [List.cons_append, inflateChunks_cons_hmo x hHMO (xs ++ r :: post)
        chunk rest out_pos buf_len]
      exact ih hxs r h1 h2 h3 post chunk rest _ _
    | inr hNMI =>
      cases rest with
      | nil =>
        rw [List.cons_append]
        simp only [inflateChunks, inflateChunkLoop, hNMI, List.isEmpty_nil,
          if_true]
        rfl
      | cons c2 rs =>
        rw [List.cons_append, inflateChunks_cons_nmi x hNMI (xs ++ r :: post)
          chunk c2 rs out_pos buf_len]
        exact ih hxs r h1 h2 h3 post c2 rs _ _

/-- C9: for any non-empty IDAT list `c :: rest` driven against an abstract
decompressor call trace, `inflate_idats` (1) errors when the decompressor
reports NeedsMoreInput while processing the final chunk — the preceding
calls may be any mix of buffer-growth rounds (`HasMoreOutput`) and
chunk advances (`NeedsMoreInput` on a non-final chunk), with exactly
`rest.length` of the latter so that the failing call lands on the last
chunk; (2) errors on any status other than Done, HasMoreOutput and
NeedsMoreInput, wherever in the chunk sequence it occurs; and (3) on
success returns the destination truncated to exactly the total number of
output bytes produced up to the Done call. -/
theorem inflate_idats_spec :
    (∀ (c : List Nat) (rest : List (List Nat)) (pre : List InflateCall)
        (r : InflateCall) (post : List InflateCall),
      (∀ x ∈ pre, x.status = TINFLStatus.HasMoreOutput ∨
        x.status = TINFLStatus.NeedsMoreInput) →
      pre.countP (fun z => z.status == TINFLStatus.NeedsMoreInput) =
        rest.length →
      r.status = TINFLStatus.NeedsMoreInput →
      eOk (inflate_idats (c :: rest) (pre ++ r :: post)) = false) ∧
    (∀ (c : List Nat) (rest : List (List Nat)) (pre : List InflateCall)
        (r : InflateCall) (post : List InflateCall),
      (∀ x ∈ pre, x.status = TINFLStatus.HasMoreOutput ∨
        x.status = TINFLStatus.NeedsMoreInput) →
      r.status ≠ TINFLStatus.Done → r.status ≠ TINFLStatus.HasMoreOutput →
      r.status ≠ TINFLStatus.NeedsMoreInput →
      eOk (inflate_idats (c :: rest) (pre ++ r :: post)) = false) ∧
    (∀ (idats : List (List Nat)) (trace : List InflateCall), idats ≠ [] →
      traceFits 0 (2 * (((idats.map List.length).sum) % 4294967296)) trace = true →
      ∀ n, inflate_idats idats trace = .ok n → n = producedUntilDone trace) := by
  refine ⟨?_, ?_, ?_⟩
  · intro c rest pre r post hall hcount hr
    exact inflateChunks_needsInput_final pre hall r hr post c rest hcount 0 _
  · intro c rest pre r post hall h1 h2 h3
    exact inflateChunks_reach_bad pre hall r h1 h2 h3 post c rest 0 _
  · intro idats trace hne hfit n h
    have := inflateChunks_ok_length idats 0
      (2 * (((idats.map List.length).sum) % 4294967296)) trace hne hfit n h
    omega

/-- Witness for C9 on a two-chunk IDAT list: a trace that advances past the
first chunk, grows the buffer once, then reports NeedsMoreInput on the final
chunk (errors); a trace that advances past the first chunk then reports
BadParam (errors); and a trace that advances then finishes with Done
producing 3 bytes (returns exactly 3). -/
theorem inflate_idats_spec_witness :
    eOk (inflate_idats [[1], [2]]
      [⟨TINFLStatus.NeedsMoreInput, 1, 0⟩, ⟨TINFLStatus.HasMoreOutput, 0, 5⟩,
       ⟨TINFLStatus.NeedsMoreInput, 0, 0⟩]) = false ∧
    eOk (inflate_idats [[1], [2]]
      [⟨TINFLStatus.NeedsMoreInput, 1, 0⟩, ⟨TINFLStatus.BadParam, 0, 0⟩]) = false ∧
    (3 : Nat) = producedUntilDone
      [⟨TINFLStatus.NeedsMoreInput, 1, 0⟩, ⟨TINFLStatus.Done, 1, 3⟩] ∧
    producedUntilDone
      [⟨TINFLStatus.NeedsMoreInput, 1, 0⟩, ⟨TINFLStatus.Done, 1, 3⟩] = 3 :=
  ⟨inflate_idats_spec.1 [1] [[2]]
      [⟨TINFLStatus.NeedsMoreInput, 1, 0⟩, ⟨TINFLStatus.HasMoreOutput, 0, 5⟩]
      ⟨TINFLStatus.NeedsMoreInput, 0, 0⟩ [] (by decide) (by decide) (by decide),
   inflate_idats_spec.2.1 [1] [[2]] [⟨TINFLStatus.NeedsMoreInput, 1, 0⟩]
      ⟨TINFLStatus.BadParam, 0, 0⟩ [] (by decide) (by decide) (by decide)
      (by decide),
   inflate_idats_spec.2.2 [[0], [0]]
      [⟨TINFLStatus.NeedsMoreInput, 1, 0⟩, ⟨TINFLStatus.Done, 1, 3⟩]
      (by decide) (by decide) 3 (by rfl),
   by decide⟩

/-! ### The round trip does hold away from the Average row-0 bug

Supporting theorems for C1: filtering then reconstructing is the identity for
None, Sub, Up and Paeth on every row, and for Average on rows after the
first — only the row-0 Average dispatch diverges. -/

lemma wadd_unfilters (r p : Nat) (hr : r < 256) (hp : p < 256) :
    wadd ((r + 256 - p) % 256) p = r := by
  simp only [wadd]
  omega

lemma getD_take_of_lt (l : List Nat) (k j d : Nat) (hj : j < k) :
    (l.take k).getD j d = l.getD j d := by
  rcases lt_or_ge j l.length with h | h
  · rw [List.getD_eq_getElem l d h,
      List.getD_eq_getElem _ d (by simp only [List.length_take]; omega)]
    exact List.getElem_take l
  · rw [List.getD_eq_default _ _ (by simp only [List.length_take]; omega),
      List.getD_eq_default _ _ h]

lemma getD_map_range (n : Nat) (g : Nat → Nat) (k : Nat) (hk : k < n) :
    ((List.range n).map g).getD k 0 = g k := by
  rw [List.getD_eq_getElem _ _ (by simp [hk])]
  simp

lemma drop_eq_getD_cons (l : List Nat) (k : Nat) (h : k < l.length) :
    l.drop k = l.getD k 0 :: l.drop (k + 1) := by
  rw [List.drop_eq_getElem_cons h, List.getD_eq_getElem _ _ h]

lemma take_succ_getD (l : List Nat) (k : Nat) (h : k < l.length) :
    l.take (k + 1) = l.take k ++ [l.getD k 0] := by
  rw [List.take_succ, List.getElem?_eq_getElem h, List.getD_eq_getElem _ _ h]
  rfl

lemma getD_lt_256 (l : List Nat) (hl : ∀ b ∈ l, b < 256) (k : Nat) : l.getD k 0 < 256 := by
  rcases lt_or_ge k l.length with h | h
  · rw [List.getD_eq_getElem _ _ h]
    exact hl _ (List.getElem_mem h)
  · rw [List.getD_eq_default _ _ h]
    omega

/-- A row loop undoes the forward filter: if the loop body applied to the
filtered byte `k` over the correct reconstruction prefix returns raw byte `k`,
the whole loop returns the raw row. -/
lemma rowGo_roundtrip (step : Nat → Nat → List Nat → Nat) (raw enc : List Nat)
    (hlen : enc.length = raw.length)
    (hstep : ∀ k, k < raw.length → step k (enc.getD k 0) (raw.take k) = raw.getD k 0) :
    rowGo step [] enc = raw := by
  have main : ∀ n k, raw.length - k ≤ n → k ≤ raw.length →
      rowGo step (raw.take k) (enc.drop k) = raw := by
    intro n
    induction n with
    | zero =>
      intro k hn hk
      have hke : k = raw.length := by omega
      subst hke
      rw [List.drop_eq_nil_of_le (by omega), List.take_length]
      rfl
    | succ n ih =>
      intro k hn hk
      rcases eq_or_lt_of_le hk with he | hlt
      · subst he
        rw [List.drop_eq_nil_of_le (by omega), List.take_length]
        rfl
      · have hkenc : k < enc.length := by omega
        rw [drop_eq_getD_cons enc k hkenc]
        have hlentake : (List.take k raw).length = k := by
          simp only [List.length_take]
          omega
        simp only [rowGo]
        rw [hlentake, hstep k hlt, ← take_succ_getD raw k hlt]
        exact ih (k + 1) (by omega) (by omega)
  have h0 := main raw.length 0 (by omega) (by omega)
  simpa using h0

lemma filterRow_length (f : Filter) (bpp : Nat) (prevOpt : Option (List Nat))
    (raw : List Nat) : (filterRow f bpp prevOpt raw).length = raw.length := by
  simp [filterRow]

lemma filterRow_getD (f : Filter) (bpp : Nat) (prevOpt : Option (List Nat))
    (raw : List Nat) (k : Nat) (hk : k < raw.length) :
    (filterRow f bpp prevOpt raw).getD k 0 =
      (raw.getD k 0 + 256 - specPred f bpp prevOpt raw k) % 256 :=
  getD_map_range raw.length _ k hk

lemma paeth_predictor_zero_sides (u : Nat) : paeth_predictor 0 u 0 = u := by
  simp only [paeth_predictor]
  split_ifs <;> omega

lemma paeth_predictor_zero_ups (l : Nat) : paeth_predictor l 0 0 = l := by
  simp only [paeth_predictor]
  split_ifs <;> omega

lemma paeth_predictor_lt_256 (l u c : Nat) (hl : l < 256) (hu : u < 256)
    (hc : c < 256) : paeth_predictor l u c < 256 := by
  simp only [paeth_predictor]
  split_ifs <;> assumption

lemma filterRow_none_eq_raw (f : Filter) (bpp : Nat) (prevOpt : Option (List Nat))
    (raw : List Nat) (hraw : ∀ b ∈ raw, b < 256)
    (hpred : ∀ k, k < raw.length → specPred f bpp prevOpt raw k = 0) :
    filterRow f bpp prevOpt raw = raw := by
  refine List.ext_getElem (filterRow_length f bpp prevOpt raw) ?_
  intro k h1 h2
  have hg := filterRow_getD f bpp prevOpt raw k h2
  rw [List.getD_eq_getElem _ _ h1, List.getD_eq_getElem _ _ h2] at hg
  rw [hg, hpred k h2]
  have := hraw _ (List.getElem_mem h2)
  omega

/-- C1 supporting theorem: the filter/reconstruct round trip holds for None,
Sub, Up and Paeth at row 0 and at rows with a previous reconstructed row, and
for Average at rows with a previous row — every combination except the buggy
Average row 0 of `average_row0_roundtrip_fails`. -/
theorem roundtrip_away_from_average_row0 (bpp : Nat) (hbpp : 1 ≤ bpp)
    (raw prev : List Nat) (hraw : ∀ b ∈ raw, b < 256) (hprev : ∀ b ∈ prev, b < 256) :
    decode_none (filterRow Filter.None bpp none raw) = raw ∧
    decode_none (filterRow Filter.None bpp (some prev) raw) = raw ∧
    decode_sub bpp (filterRow Filter.Sub bpp none raw) = raw ∧
    decode_sub bpp (filterRow Filter.Sub bpp (some prev) raw) = raw ∧
    decode_up none (filterRow Filter.Up bpp none raw) = raw ∧
    decode_up (some prev) (filterRow Filter.Up bpp (some prev) raw) = raw ∧
    decode_average bpp (some prev) (filterRow Filter.Average bpp (some prev) raw) = raw ∧
    decode_paeth bpp none (filterRow Filter.Paeth bpp none raw) = raw ∧
    decode_paeth bpp (some prev) (filterRow Filter.Paeth bpp (some prev) raw) = raw := by
  have hrawD : ∀ k, raw.getD k 0 < 256 := getD_lt_256 raw hraw
  have hprevD : ∀ k, prev.getD k 0 < 256 := getD_lt_256 prev hprev
  have hsub : ∀ (prevOpt : Option (List Nat)),
      decode_sub bpp (filterRow Filter.Sub bpp prevOpt raw) = raw := by
    intro prevOpt
    refine rowGo_roundtrip (subStep bpp) raw _ (filterRow_length _ _ _ _) ?_
    intro k hk
    rw [filterRow_getD _ _ _ _ k hk]
    by_cases hkb : k < bpp
    · have hps : specPred Filter.Sub bpp prevOpt raw k = 0 := by
        simp only [specPred]
        rw [if_neg (by omega)]
      rw [hps]
      simp only [subStep, if_pos hkb]
      have := hrawD k
      omega
    · have hps : specPred Filter.Sub bpp prevOpt raw k = raw.getD (k - bpp) 0 := by
        simp only [specPred]
        rw [if_pos (by omega)]
      rw [hps]
      simp only [subStep, if_neg hkb]
      rw [getD_take_of_lt raw k (k - bpp) 0 (by omega)]
      exact wadd_unfilters _ _ (hrawD k) (hrawD (k - bpp))
  refine ⟨?_, ?_, hsub none, hsub (some prev), ?_, ?_, ?_, ?_, ?_⟩
  · exact filterRow_none_eq_raw _ _ _ _ hraw (fun k _ => by simp [specPred])
  · exact filterRow_none_eq_raw _ _ _ _ hraw (fun k _ => by simp [specPred])
  · show decode_none (filterRow Filter.Up bpp none raw) = raw
    exact filterRow_none_eq_raw _ _ _ _ hraw (fun k _ => by simp [specPred])
  · show rowGo (upStep prev) [] (filterRow Filter.Up bpp (some prev) raw) = raw
    refine rowGo_roundtrip (upStep prev) raw _ (filterRow_length _ _ _ _) ?_
    intro k hk
    rw [filterRow_getD _ _ _ _ k hk]
    have hps : specPred Filter.Up bpp (some prev) raw k = prev.getD k 0 := by
      simp [specPred]
    rw [hps]
    simp only [upStep]
    exact wadd_unfilters _ _ (hrawD k) (hprevD k)
  · show rowGo (avgStep bpp prev) [] (filterRow Filter.Average bpp (some prev) raw) = raw
    refine rowGo_roundtrip (avgStep bpp prev) raw _ (filterRow_length _ _ _ _) ?_
    intro k hk
    rw [filterRow_getD _ _ _ _ k hk]
    by_cases hkb : k < bpp
    · have hps : specPred Filter.Average bpp (some prev) raw k = prev.getD k 0 / 2 := by
        simp only [specPred]
        rw [if_neg (by omega)]
        simp
      rw [hps]
      simp only [avgStep, if_pos hkb]
      exact wadd_unfilters _ _ (hrawD k) (by have := hprevD k; omega)
    · have hps : specPred Filter.Average bpp (some prev) raw k =
          (prev.getD k 0 + raw.getD (k - bpp) 0) / 2 := by
        simp only [specPred]
        rw [if_pos (by omega)]
      rw [hps]
      simp only [avgStep, if_neg hkb]
      rw [getD_take_of_lt raw k (k - bpp) 0 (by omega)]
      have hq : (prev.getD k 0 + raw.getD (k - bpp) 0) / 2 < 256 := by
        have h1 := hprevD k
        have h2 := hrawD (k - bpp)
        omega
      rw [Nat.mod_eq_of_lt hq]
      exact wadd_unfilters _ _ (hrawD k) hq
  · show decode_sub bpp (filterRow Filter.Paeth bpp none raw) = raw
    have heq : filterRow Filter.Paeth bpp none raw = filterRow Filter.Sub bpp none raw := by
      simp only [filterRow]
      refine List.map_congr_left ?_
      intro k _
      have hps : specPred Filter.Paeth bpp none raw k = specPred Filter.Sub bpp none raw k := by
        simp only [specPred]
        exact paeth_predictor_zero_ups _
      rw [hps]
    rw [heq]
    exact hsub none
  · show rowGo (paethStep bpp prev) [] (filterRow Filter.Paeth bpp (some prev) raw) = raw
    refine rowGo_roundtrip (paethStep bpp prev) raw _ (filterRow_length _ _ _ _) ?_
    intro k hk
    rw [filterRow_getD _ _ _ _ k hk]
    by_cases hkb : k < bpp
    · have hps : specPred Filter.Paeth bpp (some prev) raw k = prev.getD k 0 := by
        simp only [specPred]
        rw [if_neg (by omega), if_neg (by omega)]
        exact paeth_predictor_zero_sides _
      rw [hps]
      simp only [paethStep, if_pos hkb]
      exact wadd_unfilters _ _ (hrawD k) (hprevD k)
    · have hps : specPred Filter.Paeth bpp (some prev) raw k =
          paeth_predictor (raw.getD (k - bpp) 0) (prev.getD k 0) (prev.getD (k - bpp) 0) := by
        simp only [specPred]
        rw [if_pos (by omega), if_pos (by omega)]
      rw [hps]
      simp only [paethStep, if_neg hkb]
      rw [getD_take_of_lt raw k (k - bpp) 0 (by omega)]
      exact wadd_unfilters _ _ (hrawD k)
        (paeth_predictor_lt_256 _ _ _ (hrawD (k - bpp)) (hprevD k) (hprevD (k - bpp)))
end PngDecoder
